import Mathlib

/-!
Verification of the distributed graph-partitioning pipeline in
`tools/distpartitioning/dataset_utils.py` (the shuffle engine `_shuffle_data`
and the dataset assembler `get_dataset`) together with the elementwise
sparse-matrix operations exercised by `tests/pytorch/sparse/test_elementwise_op.py`.

The embedding is a shallow one:
* torch tensors holding node/edge feature rows are modelled as `List α`, one
  element per row (`α` abstracts the row payload: a scalar for 1-D data, a
  whole row for 2-D data);
* a "world" of `world_size` worker processes is modelled as a list of the
  per-rank local arrays, in rank order;
* the collective operations (all_gather of shape descriptors, alltoallv) are
  modelled as pure functions of the whole world, since each of them is a
  deterministic function of all ranks' inputs;
* the `.to(dtype=...)` cast performed by `_shuffle_data` changes only the
  dtype tag of a tensor in this model; row payloads are abstract, so the
  numeric conversion itself is the identity on rows.  The dtype/dim metadata
  handling (the part claims C4 is about) is modelled exactly.

Python slicing `data[a:b]` on nonnegative bounds corresponds to
`(l.drop a).take (b - a)` (`pySlice` below); `max(0, x - y)` on ints is
truncated subtraction on `Nat`.
-/

namespace DistPart

/-- Python slice `l[s:e]` for `0 ≤ s, e`: clamping at both ends, empty when
`e ≤ s`. -/
def pySlice (l : List α) (s e : Nat) : List α := (l.drop s).take (e - s)

/-- Modelled from the spec: `utils.map_partid_rank` is imported by
`dataset_utils.py` but `utils.py` is not under `src/`.  Spec §3 (partition
ownership map): "deterministic function `rank = partition_id mod world_size`". -/
def map_partid_rank (part_id world_size : Nat) : Nat := part_id % world_size

/-- The torch dtypes enumerated in `DATA_TYPE_ID` in `dataset_utils.py`. -/
inductive TorchDtype
  | float32 | float64 | float16 | uint8 | int8 | int16 | int32 | int64 | bool
deriving DecidableEq, Repr

/-- `DATA_TYPE_ID`: position of a dtype in the enumeration order of the
source dictionary. -/
def DATA_TYPE_ID : TorchDtype → Nat
  | .float32 => 0 | .float64 => 1 | .float16 => 2 | .uint8 => 3 | .int8 => 4
  | .int16 => 5 | .int32 => 6 | .int64 => 7 | .bool => 8

/-- `REV_DATA_TYPE_ID`: inverse lookup.  The source dictionary raises a
`KeyError` on an id outside 0..8; such ids never arise (they are produced
only by `DATA_TYPE_ID`), and the model defaults to `float32` there. -/
def REV_DATA_TYPE_ID : Nat → TorchDtype
  | 0 => .float32 | 1 => .float64 | 2 => .float16 | 3 => .uint8 | 4 => .int8
  | 5 => .int16 | 6 => .int32 | 7 => .int64 | 8 => .bool | _ => .float32

/-- A rank-local tensor together with the metadata `_shuffle_data` consults:
`dim` is the second entry of the padded shape (`1` for 1-D data) and `dtype`
the element type. -/
structure TaggedData (α : Type) where
  rows : List α
  dim : Nat
  dtype : TorchDtype
deriving Repr

instance : Inhabited (TaggedData α) := ⟨⟨[], 1, .float32⟩⟩

/-- The descriptor `data_shape = [lines, dim, DATA_TYPE_ID[dtype]]` each rank
contributes to `dist.all_gather`. -/
def data_shape (d : TaggedData α) : List Nat :=
  [d.rows.length, d.dim, DATA_TYPE_ID d.dtype]

/-- `data_lines = np.cumsum([0] + [lines of every rank])`: entry `r` is the
global row offset of rank `r` in the virtual concatenation of all ranks'
local arrays in rank order. -/
def data_lines (lines : List Nat) : List Nat :=
  (List.range (lines.length + 1)).map (fun r => (lines.take r).sum)

/-- Global row offset of rank `r` (entry `r` of `data_lines`). -/
def global_start (world : List (List α)) (r : Nat) : Nat :=
  (data_lines (world.map List.length)).getD r 0

/-- The slice of local array `d` (whose global rows start at `gs`) destined
for one partition id range `tid = (start, end)`: the source's

    if start >= global_end or end <= global_start: continue
    read_start = max(0, start - global_start)
    read_end = min(data.shape[0], end - global_start)
    data_list[target_rank].append(data[read_start:read_end])

with `global_end = gs + d.length`. -/
def part_slice (d : List α) (gs : Nat) (tid : Nat × Nat) : List α :=
  if tid.1 ≥ gs + d.length ∨ tid.2 ≤ gs then []
  else pySlice d (tid.1 - gs) (min d.length (tid.2 - gs))

/-- The per-destination bucket `data_list[target]` built by rank `r`'s loop
over `range(num_parts)`: the slices of `d` for every partition owned by
`target`, in ascending partition order.  The source appends nothing at all
when `data.shape[0] == 0` (the buckets remain `None`); content-wise that is
the empty bucket. -/
def data_list_entry (d : List α) (gs : Nat) (tids : List (Nat × Nat))
    (numParts ws target : Nat) : List (List α) :=
  if d.length = 0 then []
  else
    ((List.range numParts).filter (fun p => map_partid_rank p ws = target)).map
      (fun p => part_slice d gs (tids.getD p (0, 0)))

/-- `data_input[target]` as prepared by source rank `r`: `torch.cat` of the
bucket (an empty placeholder when the bucket is `None`/empty).  The
`.to(dtype=data_type)` cast is the identity on the abstract row payload. -/
def data_input_entry (world : List (List α)) (tids : List (Nat × Nat))
    (numParts ws r target : Nat) : List α :=
  (data_list_entry (world.getD r []) (global_start world r) tids numParts ws target).flatten

/-- Modelled from the spec: `gloo_wrapper.alltoallv_cpu` is not under `src/`.
Spec §6: a variable-length all-to-all over the other `world_size - 1` peers
that "returns a per-source list of received buffers", with `None`
placeholders (spec §4.4 step 5) at the self slot and for peers that sent
nothing.  `sends j t` is the buffer rank `j` prepared for destination `t`;
the result is what destination `i` receives, indexed by source rank. -/
def alltoallv_cpu (sends : Nat → Nat → List α) (ws i : Nat) :
    List (Option (List α)) :=
  (List.range ws).map (fun j =>
    if j = i then none
    else if (sends j i).isEmpty then none else some (sends j i))

/-- The rows of the tensor `_shuffle_data` returns on rank `i`: receive from
every peer, put the saved self-destined slice `local_data` back at position
`i`, drop the `None` placeholders, `torch.cat` the rest. -/
def shuffle_rows (world : List (List α)) (tids : List (Nat × Nat))
    (numParts ws i : Nat) : List α :=
  let local_data := data_input_entry world tids numParts ws i i
  let data_output :=
    (alltoallv_cpu (fun j t => data_input_entry world tids numParts ws j t) ws i).set
      i (some local_data)
  data_output.reduceOption.flatten

/-- The full result of `_shuffle_data` on rank `i`, including the dtype and
dimensionality taken from entry 0 of the all-gathered descriptors
("Rank~0 always succeeds to load non-empty data, so we fetch info from it"). -/
def shuffle_output (worldT : List (TaggedData α)) (tids : List (Nat × Nat))
    (numParts ws i : Nat) : TaggedData α :=
  let data_shape_output := worldT.map data_shape
  { rows := shuffle_rows (worldT.map TaggedData.rows) tids numParts ws i
    dim := (data_shape_output.getD 0 []).getD 1 0
    dtype := REV_DATA_TYPE_ID ((data_shape_output.getD 0 []).getD 2 0) }

/-- Consecutive `(start, end)` id ranges of the given sizes, starting at
`acc`.  A list of per-partition ranges is "contiguous, non-overlapping and
covering" exactly when it is `intervalsFrom 0 sizes` with the sizes summing
to the total row count. -/
def intervalsFrom (acc : Nat) : List Nat → List (Nat × Nat)
  | [] => []
  | n :: ns => (acc, acc + n) :: intervalsFrom (acc + n) ns

/-- Left boundary of partition `p`: the total size of the partitions before
it. -/
def boundary (sizes : List Nat) (p : Nat) : Nat := (sizes.take p).sum

/-! ### Slice algebra -/

theorem pySlice_nil_of_le {l : List α} {s e : Nat} (h : e ≤ s) :
    pySlice l s e = [] := by
  simp [pySlice, Nat.sub_eq_zero_of_le h]

@[simp] theorem pySlice_zero_len (l : List α) (s : Nat) : pySlice l s s = [] :=
  pySlice_nil_of_le le_rfl

@[simp] theorem pySlice_nil (s e : Nat) : pySlice ([] : List α) s e = [] := by
  simp [pySlice]

theorem pySlice_append_pySlice (l : List α) {x y z : Nat} (h1 : x ≤ y) (h2 : y ≤ z) :
    pySlice l x y ++ pySlice l y z = pySlice l x z := by
  unfold pySlice
  rw [show z - x = (y - x) + (z - y) by omega, List.take_add, List.drop_drop,
    show x + (y - x) = y by omega]

theorem pySlice_length {l : List α} {s e : Nat} (he : e ≤ l.length) :
    (pySlice l s e).length = e - s := by
  simp [pySlice]
  omega

theorem pySlice_zero_full (l : List α) {n : Nat} (h : l.length ≤ n) :
    pySlice l 0 n = l := by
  unfold pySlice
  rw [List.drop_zero, Nat.sub_zero, List.take_of_length_le h]

/-- Slicing a contiguous block of `orig` is slicing `orig`: if
`d = orig[gs : gs + |d|]` then `d[s - gs : e - gs] = orig[max s gs : min e (gs + |d|)]`
(all arithmetic truncated). -/
theorem pySlice_of_block {orig d : List α} {gs : Nat}
    (hd : d = pySlice orig gs (gs + d.length)) (s e : Nat) (hse : s ≤ e) :
    pySlice d (s - gs) (e - gs) =
      pySlice orig (min e (max s gs)) (min e (max s (gs + d.length))) := by
  by_cases hge : e ≤ gs
  · rw [pySlice_nil_of_le (by omega), pySlice_nil_of_le (by omega)]
  · push_neg at hge
    conv_lhs => rw [hd]
    unfold pySlice
    rw [List.drop_take, List.drop_drop, List.take_take,
      show gs + (s - gs) = min e (max s gs) by omega]
    congr 1
    omega

/-! ### `boundary` and `intervalsFrom` -/

theorem boundary_mono (sizes : List Nat) {p q : Nat} (h : p ≤ q) :
    boundary sizes p ≤ boundary sizes q := by
  have hpre : sizes.take p <+: sizes.take q := by
    have : sizes.take p = (sizes.take q).take p := by
      rw [List.take_take, Nat.min_eq_left h]
    rw [this]
    exact List.take_prefix ..
  obtain ⟨t, ht⟩ := hpre
  have := congrArg List.sum ht
  rw [List.sum_append] at this
  unfold boundary
  omega

theorem boundary_le_sum (sizes : List Nat) (p : Nat) :
    boundary sizes p ≤ sizes.sum := by
  have := boundary_mono sizes (Nat.le_max_left p sizes.length)
  calc boundary sizes p ≤ boundary sizes (max p sizes.length) := this
    _ ≤ sizes.sum := by
        unfold boundary
        rw [List.take_of_length_le (Nat.le_max_right ..)]

theorem boundary_length (sizes : List Nat) :
    boundary sizes sizes.length = sizes.sum := by
  unfold boundary
  rw [List.take_length]

theorem intervalsFrom_getD (sizes : List Nat) :
    ∀ (a p : Nat), p < sizes.length →
      (intervalsFrom a sizes).getD p (0, 0) =
        (a + boundary sizes p, a + boundary sizes (p + 1)) := by
  induction sizes with
  | nil => intro a p hp; simp at hp
  | cons n ns ih =>
    intro a p hp
    cases p with
    | zero => simp [intervalsFrom, boundary]
    | succ q =>
      have hq : q < ns.length := by simpa using hp
      have := ih (a + n) q hq
      simp only [intervalsFrom, List.getD_cons_succ]
      rw [this]
      simp [boundary, List.sum_cons, Nat.add_assoc]

theorem boundary_succ (sizes : List Nat) {p : Nat} (h : p < sizes.length) :
    boundary sizes (p + 1) = boundary sizes p + sizes.getD p 0 := by
  unfold boundary
  rw [List.sum_take_succ _ _ h, List.getD_eq_getElem _ _ h]

/-! ### `global_start` -/

theorem getD_map_range (f : Nat → β) (d : β) {r n : Nat} (h : r < n) :
    ((List.range n).map f).getD r d = f r := by
  rw [List.getD_eq_getElem _ _ (by simpa), List.getElem_map, List.getElem_range]

theorem global_start_eq_boundary (world : List (List α)) {r : Nat}
    (h : r ≤ world.length) :
    global_start world r = boundary (world.map List.length) r := by
  unfold global_start data_lines boundary
  rw [getD_map_range _ _ (by simpa using Nat.lt_succ_of_le h)]

theorem global_start_zero (world : List (List α)) : global_start world 0 = 0 := by
  rw [global_start_eq_boundary _ (Nat.zero_le _)]
  simp [boundary]

theorem getD_map_length (world : List (List α)) {r : Nat} (h : r < world.length) :
    (world.map List.length).getD r 0 = (world.getD r []).length := by
  rw [List.getD_eq_getElem _ _ (by simpa), List.getElem_map,
    List.getD_eq_getElem _ _ h]

theorem global_start_succ (world : List (List α)) {r : Nat} (h : r < world.length) :
    global_start world (r + 1) = global_start world r + (world.getD r []).length := by
  rw [global_start_eq_boundary _ h, global_start_eq_boundary _ (Nat.le_of_lt h),
    boundary_succ _ (by simpa), getD_map_length _ h]

theorem global_start_length (world : List (List α)) :
    global_start world world.length = world.flatten.length := by
  rw [global_start_eq_boundary _ le_rfl, List.length_flatten, boundary,
    List.take_of_length_le (by simp)]

theorem pySlice_append_left (w t : List α) (x y : Nat) :
    pySlice (w ++ t) (w.length + x) (w.length + y) = pySlice t x y := by
  unfold pySlice
  rw [← List.drop_drop, List.drop_left]
  congr 1
  omega

/-- Each rank's local array is the contiguous block of the virtual
concatenation starting at its global offset. -/
theorem getD_eq_block (world : List (List α)) :
    ∀ {j : Nat}, j < world.length →
      world.getD j [] =
        pySlice world.flatten (global_start world j)
          (global_start world j + (world.getD j []).length) := by
  induction world with
  | nil => intro j hj; simp at hj
  | cons w ws ih =>
    intro j hj
    cases j with
    | zero =>
      rw [global_start_zero]
      simp only [List.getD_cons_zero, List.flatten_cons]
      rw [pySlice, List.drop_zero, Nat.zero_add, Nat.sub_zero,
        List.take_left]
    | succ r =>
      have hr : r < ws.length := by simpa using hj
      have hgs : global_start (w :: ws) (r + 1) = w.length + global_start ws r := by
        rw [global_start_eq_boundary _ (by simpa using Nat.succ_le_succ hr.le),
          global_start_eq_boundary _ hr.le]
        simp only [List.map_cons, boundary, List.take_succ_cons, List.sum_cons]
      simp only [List.getD_cons_succ]
      rw [hgs, List.flatten_cons, Nat.add_assoc, pySlice_append_left]
      exact ih hr

/-! ### `part_slice` and the per-destination buckets -/

theorem pySlice_nil_of_len_le {l : List α} {s e : Nat} (h : l.length ≤ s) :
    pySlice l s e = [] := by
  unfold pySlice
  rw [List.drop_eq_nil_of_le h, List.take_nil]

/-- The guard and the `min` clamp in the source's bucketing loop are both
redundant under truncated `Nat` subtraction: the appended slice is always
`data[start - gs : end - gs]`. -/
theorem part_slice_eq_pySlice (d : List α) (gs : Nat) (tid : Nat × Nat) :
    part_slice d gs tid = pySlice d (tid.1 - gs) (tid.2 - gs) := by
  unfold part_slice
  split
  · rename_i hguard
    rcases hguard with h | h
    · rw [pySlice_nil_of_len_le (by omega)]
    · rw [pySlice_nil_of_le (by omega)]
  · rename_i hguard
    push_neg at hguard
    unfold pySlice
    rw [List.take_eq_take]
    have : (d.drop (tid.1 - gs)).length = d.length - (tid.1 - gs) := by simp
    omega

@[simp] theorem part_slice_nil (gs : Nat) (tid : Nat × Nat) :
    part_slice ([] : List α) gs tid = [] := by
  rw [part_slice_eq_pySlice, pySlice_nil]

theorem flatten_map_eq_nil {l : List β} {f : β → List α}
    (h : ∀ x ∈ l, f x = []) : (l.map f).flatten = [] := by
  induction l with
  | nil => rfl
  | cons x xs ih =>
    simp only [List.map_cons, List.flatten_cons, h x (by simp)]
    exact ih (fun y hy => h y (by simp [hy]))

/-- The `data.shape[0] > 0` guard does not change the bucket's rows: an empty
local array contributes empty slices anyway. -/
theorem data_input_entry_eq (world : List (List α)) (tids : List (Nat × Nat))
    (numParts ws r target : Nat) :
    data_input_entry world tids numParts ws r target =
      (((List.range numParts).filter (fun p => map_partid_rank p ws = target)).map
        (fun p =>
          part_slice (world.getD r []) (global_start world r)
            (tids.getD p (0, 0)))).flatten := by
  unfold data_input_entry data_list_entry
  split
  · rename_i hlen
    rw [List.length_eq_zero] at hlen
    exact (flatten_map_eq_nil fun p _ => by rw [hlen, part_slice_nil]).symm
  · rfl

/-! ### Structure of the reassembled output -/

theorem set_map_range (f : Nat → β) (v : β) {i n : Nat} (_hi : i < n) :
    ((List.range n).map f).set i v =
      (List.range n).map (fun j => if j = i then v else f j) := by
  apply List.ext_getElem
  · simp
  · intro k h1 h2
    simp only [List.length_map, List.length_range] at h1
    rw [List.getElem_set]
    simp only [List.getElem_map, List.getElem_range]
    split
    · rename_i h
      rw [if_pos h.symm]
    · rename_i h
      rw [if_neg (fun hk => h hk.symm)]

theorem reduceOption_flatten_optionize (f : Nat → List α) (i : Nat) :
    ∀ l : List Nat,
      ((l.map (fun j =>
          if j = i then some (f i)
          else if (f j).isEmpty then none else some (f j))).reduceOption).flatten =
        (l.map f).flatten := by
  intro l
  induction l with
  | nil => rfl
  | cons x xs ih =>
    simp only [List.map_cons, List.flatten_cons]
    by_cases hx : x = i
    · simpa [hx, List.reduceOption_cons_of_some] using by rw [ih]
    · by_cases he : (f x).isEmpty
      · rw [if_neg hx, if_pos he, List.reduceOption_cons_of_none,
          List.isEmpty_iff.mp he, List.nil_append, ih]
      · rw [if_neg hx, if_neg he, List.reduceOption_cons_of_some,
          List.flatten_cons, ih]

/-- Reassembly: the shuffled rows on rank `i` are the concatenation, in
ascending source-rank order, of the buckets every source rank prepared for
destination `i`, with the self-destined bucket (which bypasses the collective)
sitting at position `i` and `None` placeholders dropped. -/
theorem shuffle_rows_eq_flatten (world : List (List α)) (tids : List (Nat × Nat))
    (numParts ws i : Nat) (hi : i < ws) :
    shuffle_rows world tids numParts ws i =
      ((List.range ws).map
        (fun j => data_input_entry world tids numParts ws j i)).flatten := by
  have key := reduceOption_flatten_optionize
    (fun j => data_input_entry world tids numParts ws j i) i (List.range ws)
  simp only [shuffle_rows, alltoallv_cpu]
  rw [set_map_range _ _ hi, ← key]
  congr 2
  apply List.map_congr_left
  intro j _
  by_cases hj : j = i <;> simp [hj]

/-! ### The staircase argument

For a fixed destination, the owned partitions form an ascending chain of
disjoint intervals `(s, e)`.  As the source rank advances from `0` to
`world_size`, its global span `[gs_j, gs_(j+1))` sweeps `[0, N)` from left to
right, and the bucket it sends is, per owned interval, the piece of that
interval covered by the span.  `clampPoint (s, e) t = min e (max s t)` clamps
the sweep position `t` into the interval. -/

/-- Clamp position `t` into the interval `(s, e)`. -/
def clampPoint (pr : Nat × Nat) (t : Nat) : Nat := min pr.2 (max pr.1 t)

theorem clampPoint_mono (pr : Nat × Nat) {t t' : Nat} (h : t ≤ t') :
    clampPoint pr t ≤ clampPoint pr t' := by
  unfold clampPoint
  omega

theorem clampPoint_ge (pr : Nat × Nat) (hpr : pr.1 ≤ pr.2) (t : Nat) :
    pr.1 ≤ clampPoint pr t := by
  unfold clampPoint
  omega

/-- One sweep step: coverage of every owned interval up to position `t`,
followed by the pieces contributed by a span `[t, t')`, equals coverage up to
`t'`.  The chain hypothesis is what makes the two flattened interleavings
agree. -/
theorem flatten_cover_step (orig : List α) :
    ∀ (ps : List (Nat × Nat)), (∀ pr ∈ ps, pr.1 ≤ pr.2) →
      ps.Pairwise (fun a b => a.2 ≤ b.1) →
      ∀ {t t' : Nat}, t ≤ t' →
      (ps.map (fun pr => pySlice orig pr.1 (clampPoint pr t))).flatten ++
        (ps.map (fun pr => pySlice orig (clampPoint pr t) (clampPoint pr t'))).flatten =
        (ps.map (fun pr => pySlice orig pr.1 (clampPoint pr t'))).flatten := by
  intro ps
  induction ps with
  | nil => intro _ _ t t' _; rfl
  | cons hd rest ih =>
    intro hle hchain t t' htt
    have hhd : hd.1 ≤ hd.2 := hle hd (by simp)
    have hrest_le : ∀ pr ∈ rest, pr.1 ≤ pr.2 := fun pr hpr => hle pr (by simp [hpr])
    have hrest_chain : rest.Pairwise (fun a b => a.2 ≤ b.1) :=
      (List.pairwise_cons.mp hchain).2
    have hhd_rest : ∀ pr ∈ rest, hd.2 ≤ pr.1 :=
      (List.pairwise_cons.mp hchain).1
    simp only [List.map_cons, List.flatten_cons]
    by_cases he : hd.2 ≤ t
    · -- the head interval is already fully covered; its new piece is empty
      have hB : pySlice orig (clampPoint hd t) (clampPoint hd t') = [] := by
        apply pySlice_nil_of_le
        unfold clampPoint
        omega
      have hc : clampPoint hd t = clampPoint hd t' := by
        unfold clampPoint
        omega
      rw [hB, List.nil_append, List.append_assoc,
        ih hrest_le hrest_chain htt, hc]
    · -- the span has not passed the head yet, so no later interval has
      -- received anything: their coverage up to `t` is empty
      push_neg at he
      have hAS : (rest.map (fun pr => pySlice orig pr.1 (clampPoint pr t))).flatten = [] := by
        apply flatten_map_eq_nil
        intro pr hpr
        have h1 := hhd_rest pr hpr
        apply pySlice_nil_of_le
        unfold clampPoint
        omega
      rw [hAS, List.append_nil, ← List.append_assoc,
        pySlice_append_pySlice orig (clampPoint_ge hd hhd t) (clampPoint_mono hd htt),
        ← ih hrest_le hrest_chain htt, hAS, List.nil_append]

/-- Full sweep: starting from nothing and sweeping `[0, gsEnd)` with
`gsEnd` past every interval end covers every interval exactly. -/
theorem flatten_cover_full (orig : List α) (ps : List (Nat × Nat))
    (hle : ∀ pr ∈ ps, pr.1 ≤ pr.2) :
    (ps.map (fun pr => pySlice orig pr.1 (clampPoint pr 0))).flatten = [] := by
  apply flatten_map_eq_nil
  intro pr hpr
  apply pySlice_nil_of_le
  have := hle pr hpr
  unfold clampPoint
  omega

/-- A source rank's bucket for destination `i`, re-expressed on the virtual
concatenation: per owned interval, the piece covered by the source's global
span `[gs_j, gs_(j+1))`. -/
theorem bucket_as_cover (world : List (List α)) (sizes : List Nat)
    (numParts ws : Nat) (hnp : sizes.length = numParts)
    {j : Nat} (hj : j < world.length) (i : Nat) :
    data_input_entry world (intervalsFrom 0 sizes) numParts ws j i =
      ((((List.range numParts).filter (fun p => map_partid_rank p ws = i)).map
          (fun p => (boundary sizes p, boundary sizes (p + 1)))).map
        (fun pr => pySlice world.flatten
          (clampPoint pr (global_start world j))
          (clampPoint pr (global_start world (j + 1))))).flatten := by
  rw [data_input_entry_eq, List.map_map]
  congr 1
  apply List.map_congr_left
  intro p hp
  have hpn : p < numParts := List.mem_range.mp (List.mem_filter.mp hp).1
  rw [intervalsFrom_getD sizes 0 p (by omega), part_slice_eq_pySlice]
  simp only [Nat.zero_add, Function.comp_apply]
  have hs : boundary sizes p ≤ boundary sizes (p + 1) :=
    boundary_mono sizes (Nat.le_succ p)
  rw [pySlice_of_block (getD_eq_block world hj) _ _ hs]
  unfold clampPoint
  rw [global_start_succ world hj]

/-- Characterization of `_shuffle_data`: when the partition id ranges are the
consecutive intervals of `sizes` covering the virtual concatenation of all
ranks' local arrays, rank `i` receives exactly the rows of the intervals it
owns, in ascending interval order. -/
theorem shuffle_rows_spec (world : List (List α)) (sizes : List Nat)
    (numParts ws i : Nat) (hws : ws = world.length) (hi : i < ws)
    (hnp : sizes.length = numParts) (hsum : sizes.sum = world.flatten.length) :
    shuffle_rows world (intervalsFrom 0 sizes) numParts ws i =
      (((List.range numParts).filter (fun p => map_partid_rank p ws = i)).map
        (fun p => pySlice world.flatten (boundary sizes p)
          (boundary sizes (p + 1)))).flatten := by
  subst hws
  set ws := world.length with hws
  set owned := (List.range numParts).filter (fun p => map_partid_rank p ws = i) with howned
  set ps := owned.map (fun p => (boundary sizes p, boundary sizes (p + 1))) with hps
  have hle_ps : ∀ pr ∈ ps, pr.1 ≤ pr.2 := by
    intro pr hpr
    obtain ⟨p, _, rfl⟩ := List.mem_map.mp hpr
    exact boundary_mono sizes (Nat.le_succ p)
  have hchain_ps : ps.Pairwise (fun a b => a.2 ≤ b.1) := by
    have h1 : owned.Pairwise (· < ·) :=
      (List.pairwise_lt_range numParts).sublist (List.filter_sublist _)
    apply h1.map
    intro a b hab
    exact boundary_mono sizes (by omega)
  have sweep : ∀ n, n ≤ world.length →
      ((List.range n).map
        (fun j => data_input_entry world (intervalsFrom 0 sizes) numParts ws j i)).flatten =
      (ps.map (fun pr => pySlice world.flatten pr.1
        (clampPoint pr (global_start world n)))).flatten := by
    intro n
    induction n with
    | zero =>
      intro _
      rw [global_start_zero]
      exact (flatten_cover_full world.flatten ps hle_ps).symm
    | succ m ih =>
      intro hm
      have hmlt : m < world.length := hm
      rw [List.range_succ, List.map_append, List.flatten_append,
        ih (Nat.le_of_lt hmlt)]
      simp only [List.map_cons, List.map_nil, List.flatten_cons, List.flatten_nil,
        List.append_nil]
      rw [bucket_as_cover world sizes numParts ws hnp hmlt i, ← howned, ← hps]
      exact flatten_cover_step world.flatten ps hle_ps hchain_ps
        (by rw [global_start_succ world hmlt]; omega)
  rw [shuffle_rows_eq_flatten world _ numParts ws i hi,
    sweep ws le_rfl, hps, List.map_map]
  congr 1
  apply List.map_congr_left
  intro p hp
  have hpn : p < numParts := List.mem_range.mp (List.mem_filter.mp hp).1
  simp only [Function.comp_apply]
  congr 1
  rw [global_start_length]
  have h2 : boundary sizes (p + 1) ≤ world.flatten.length := by
    rw [← hsum]
    exact boundary_le_sum sizes (p + 1)
  unfold clampPoint
  simp only
  omega

/-! ### Conservation of rows -/

theorem perm_fiberwise (key : Nat → Nat) :
    ∀ (n : Nat) (l : List Nat), (∀ x ∈ l, key x < n) →
      List.Perm ((List.range n).map (fun i => l.filter (fun x => key x = i))).flatten l := by
  intro n
  induction n with
  | zero =>
    intro l hl
    have : l = [] := by
      cases l with
      | nil => rfl
      | cons x xs => exact absurd (hl x (by simp)) (by omega)
    simp [this]
  | succ m ih =>
    intro l hl
    rw [List.range_succ, List.map_append, List.flatten_append]
    have hfib : ∀ i ∈ List.range m,
        l.filter (fun x => key x = i) =
          (l.filter (fun x => ¬ key x = m)).filter (fun x => key x = i) := by
      intro i hi
      have him : i < m := List.mem_range.mp hi
      rw [List.filter_filter]
      apply List.filter_congr
      intro x _
      by_cases hx : key x = i
      · simp [hx]
        omega
      · simp [hx]
    rw [List.map_congr_left hfib]
    have hsub : ∀ x ∈ l.filter (fun x => ¬ key x = m), key x < m := by
      intro x hx
      have h1 := List.of_mem_filter hx
      have h2 := hl x (List.mem_of_mem_filter hx)
      simp at h1
      omega
    have hperm := ih (l.filter (fun x => ¬ key x = m)) hsub
    simp only [List.map_cons, List.map_nil, List.flatten_cons, List.flatten_nil,
      List.append_nil]
    have hfin := List.filter_append_perm (fun x => ¬ key x = m) l
    have heq2 : l.filter (fun x => !(decide (¬ key x = m))) =
        l.filter (fun x => decide (key x = m)) := by
      apply List.filter_congr
      intro x _
      simp [decide_not]
    rw [heq2] at hfin
    exact (hperm.append_right _).trans hfin

theorem flatten_chain (l : List α) (f : Nat → Nat) (hf : ∀ k, f k ≤ f (k + 1)) :
    ∀ n, ((List.range n).map (fun k => pySlice l (f k) (f (k + 1)))).flatten =
      pySlice l (f 0) (f n) := by
  intro n
  induction n with
  | zero => simp
  | succ m ih =>
    rw [List.range_succ, List.map_append, List.flatten_append, ih]
    simp only [List.map_cons, List.map_nil, List.flatten_cons, List.flatten_nil,
      List.append_nil]
    exact pySlice_append_pySlice l (monotone_nat_of_le_succ hf (Nat.zero_le m)) (hf m)

theorem flatten_all_parts (orig : List α) (sizes : List Nat) (numParts : Nat)
    (hnp : sizes.length = numParts) (hsum : sizes.sum = orig.length) :
    ((List.range numParts).map
      (fun p => pySlice orig (boundary sizes p) (boundary sizes (p + 1)))).flatten = orig := by
  rw [flatten_chain orig (boundary sizes) (fun k => boundary_mono sizes (Nat.le_succ k))]
  have h0 : boundary sizes 0 = 0 := by simp [boundary]
  have hN : boundary sizes numParts = orig.length := by
    rw [← hnp, boundary_length, hsum]
  rw [h0, hN]
  exact pySlice_zero_full orig le_rfl

theorem flatten_map_flatten_map {β : Type v} {γ : Type w} (g : β → List γ)
    (f : γ → List α) :
    ∀ l : List β,
      (l.map (fun i => ((g i).map f).flatten)).flatten =
        (((l.map g).flatten).map f).flatten := by
  intro l
  induction l with
  | nil => rfl
  | cons x xs ih =>
    simp only [List.map_cons, List.flatten_cons, List.map_append,
      List.flatten_append, ih]

/-- Conservation: across all ranks, the shuffle neither loses nor duplicates
a row. -/
theorem shuffle_conservation (world : List (List α)) (sizes : List Nat)
    (numParts ws : Nat) (hws : ws = world.length)
    (hnp : sizes.length = numParts) (hsum : sizes.sum = world.flatten.length) :
    List.Perm
      (((List.range ws).map
        (fun i => shuffle_rows world (intervalsFrom 0 sizes) numParts ws i)).flatten)
      world.flatten := by
  rcases Nat.eq_zero_or_pos ws with h0 | hpos
  · have hworld : world = [] := List.eq_nil_of_length_eq_zero (by omega)
    subst hworld
    subst h0
    exact List.Perm.refl _
  have hspec : ∀ i ∈ List.range ws,
      shuffle_rows world (intervalsFrom 0 sizes) numParts ws i =
        (((List.range numParts).filter (fun p => map_partid_rank p ws = i)).map
          (fun p => pySlice world.flatten (boundary sizes p)
            (boundary sizes (p + 1)))).flatten := by
    intro i hi
    exact shuffle_rows_spec world sizes numParts ws i hws (List.mem_range.mp hi) hnp hsum
  rw [List.map_congr_left hspec,
    flatten_map_flatten_map
      (fun i => (List.range numParts).filter (fun p => map_partid_rank p ws = i))
      (fun p => pySlice world.flatten (boundary sizes p) (boundary sizes (p + 1)))]
  have hperm := perm_fiberwise (fun p => map_partid_rank p ws) ws (List.range numParts)
    (fun x _ => Nat.mod_lt x hpos)
  have hmap := hperm.map
    (fun p => pySlice world.flatten (boundary sizes p) (boundary sizes (p + 1)))
  refine (hmap.flatten).trans ?_
  rw [flatten_all_parts world.flatten sizes numParts hnp hsum]

/-! ### The collection loop of `get_dataset`

After `_shuffle_data` returns, `get_dataset` walks `range(num_parts)` and, for
every partition owned by the current rank, slices off `end - start` rows and
stores them under the key `f"{type_name}/{feat_name}/{local_part_id//world_size}"`,
recording the partition's id range alongside. -/

/-- The dictionary key `f"{tname}/{fname}/{p // ws}"`. -/
def feature_key (tname fname : String) (ws p : Nat) : String :=
  tname ++ "/" ++ fname ++ "/" ++ toString (p / ws)

/-- One pass of the collection loop over the remaining partition ids `ps`,
with `offset` rows of `data` already consumed.  Returns the `(key, block)`
entries and the `(key, [tid])` entries in insertion order. -/
def collect_loop_entries (tname fname : String) (tids : List (Nat × Nat))
    (ws rank : Nat) (data : List α) :
    List Nat → Nat → List (String × List α) × List (String × List (Nat × Nat))
  | [], _ => ([], [])
  | p :: ps, offset =>
    if map_partid_rank p ws = rank then
      let se := tids.getD p (0, 0)
      let rest := collect_loop_entries tname fname tids ws rank data ps
        (offset + (se.2 - se.1))
      ((feature_key tname fname ws p,
          pySlice data offset (offset + (se.2 - se.1))) :: rest.1,
        (feature_key tname fname ws p, [se]) :: rest.2)
    else collect_loop_entries tname fname tids ws rank data ps offset

theorem pySlice_middle (pre b t : List α) :
    pySlice (pre ++ (b ++ t)) pre.length (pre.length + b.length) = b := by
  unfold pySlice
  rw [List.drop_left, show pre.length + b.length - pre.length = b.length by omega,
    List.take_left]

/-- The collection loop recovers the blocks: if `data` consists of `offset`
already-consumed rows followed by the concatenation of one block per owned
partition (each of the advertised size), the loop returns exactly those
blocks, keyed and paired with the right id ranges. -/
theorem collect_loop_spec (tname fname : String) (tids : List (Nat × Nat))
    (ws rank : Nat) (blocks : Nat → List α) :
    ∀ (ps : List Nat) (pre : List α),
      (∀ p ∈ ps, map_partid_rank p ws = rank →
        (blocks p).length = (tids.getD p (0, 0)).2 - (tids.getD p (0, 0)).1) →
      collect_loop_entries tname fname tids ws rank
          (pre ++ ((ps.filter (fun p => map_partid_rank p ws = rank)).map blocks).flatten)
          ps pre.length =
        ((ps.filter (fun p => map_partid_rank p ws = rank)).map
            (fun p => (feature_key tname fname ws p, blocks p)),
          (ps.filter (fun p => map_partid_rank p ws = rank)).map
            (fun p => (feature_key tname fname ws p, [tids.getD p (0, 0)]))) := by
  intro ps
  induction ps with
  | nil => intro pre _; rfl
  | cons p ps ih =>
    intro pre hsz
    by_cases hp : map_partid_rank p ws = rank
    · rw [List.filter_cons_of_pos (by simpa using hp)]
      simp only [List.map_cons, List.flatten_cons]
      unfold collect_loop_entries
      rw [if_pos hp]
      simp only []
      have hlen : (blocks p).length =
          (tids.getD p (0, 0)).2 - (tids.getD p (0, 0)).1 :=
        hsz p (by simp) hp
      have hslice : pySlice
          (pre ++ (blocks p ++
            ((ps.filter (fun q => map_partid_rank q ws = rank)).map blocks).flatten))
          pre.length (pre.length + ((tids.getD p (0, 0)).2 - (tids.getD p (0, 0)).1)) =
          blocks p := by
        rw [← hlen]
        exact pySlice_middle ..
      have hrec := ih (pre ++ blocks p)
        (fun q hq hqr => hsz q (by simp [hq]) hqr)
      rw [List.append_assoc] at hrec
      rw [show pre.length + ((tids.getD p (0, 0)).2 - (tids.getD p (0, 0)).1) =
          (pre ++ blocks p).length by simp [hlen]] at hslice ⊢
      rw [hrec, hslice]
    · rw [List.filter_cons_of_neg (by simpa using hp)]
      unfold collect_loop_entries
      rw [if_neg hp]
      exact ih pre (fun q hq hqr => hsz q (by simp [hq]) hqr)

/-! ### Order preservation inside one source's contribution -/

theorem drop_eq_pySlice_append (d : List α) {t y : Nat} (h : t ≤ y) :
    d.drop t = pySlice d t y ++ d.drop y := by
  unfold pySlice
  have hdd : d.drop y = (d.drop t).drop (y - t) := by
    rw [List.drop_drop]
    congr 1
    omega
  rw [hdd, List.take_append_drop]

theorem flatten_pySlice_sublist (d : List α) :
    ∀ (ps : List (Nat × Nat)) (t : Nat),
      (∀ pr ∈ ps, pr.1 ≤ pr.2) → (∀ pr ∈ ps, t ≤ pr.1) →
      ps.Pairwise (fun a b => a.2 ≤ b.1) →
      List.Sublist ((ps.map (fun pr => pySlice d pr.1 pr.2)).flatten) (d.drop t) := by
  intro ps
  induction ps with
  | nil => intro t _ _ _; exact List.nil_sublist _
  | cons x rest ih =>
    intro t hle hlo hchain
    have hx : x.1 ≤ x.2 := hle x (by simp)
    have htx : t ≤ x.1 := hlo x (by simp)
    have hxr : ∀ pr ∈ rest, x.2 ≤ pr.1 := (List.pairwise_cons.mp hchain).1
    simp only [List.map_cons, List.flatten_cons]
    rw [drop_eq_pySlice_append d (show t ≤ x.2 by omega)]
    apply List.Sublist.append
    · rw [← pySlice_append_pySlice d htx hx]
      exact List.sublist_append_right ..
    · exact ih x.2 (fun pr hpr => hle pr (by simp [hpr])) hxr
        (List.pairwise_cons.mp hchain).2

/-! ### Key discipline of the produced dictionaries -/

theorem collect_keys_eq (tname fname : String) (tids : List (Nat × Nat))
    (ws rank : Nat) (data : List α) :
    ∀ (ps : List Nat) (offset : Nat),
      ((collect_loop_entries tname fname tids ws rank data ps offset).1).map Prod.fst =
        ((collect_loop_entries tname fname tids ws rank data ps offset).2).map Prod.fst := by
  intro ps
  induction ps with
  | nil => intro _; rfl
  | cons p ps ih =>
    intro offset
    unfold collect_loop_entries
    by_cases hp : map_partid_rank p ws = rank
    · rw [if_pos hp]
      simp only [List.map_cons]
      rw [ih]
    · rw [if_neg hp]
      exact ih offset

theorem collect_tids_entries (tname fname : String) (tids : List (Nat × Nat))
    (ws rank : Nat) (data : List α) :
    ∀ (ps : List Nat) (offset : Nat),
      ∀ kv ∈ (collect_loop_entries tname fname tids ws rank data ps offset).2,
        ∃ p ∈ ps, map_partid_rank p ws = rank ∧
          kv.1 = feature_key tname fname ws p ∧ kv.2 = [tids.getD p (0, 0)] := by
  intro ps
  induction ps with
  | nil => intro _ kv hkv; simp [collect_loop_entries] at hkv
  | cons p ps ih =>
    intro offset kv hkv
    unfold collect_loop_entries at hkv
    by_cases hp : map_partid_rank p ws = rank
    · rw [if_pos hp] at hkv
      simp only [List.mem_cons] at hkv
      rcases hkv with hkv | hkv
      · exact ⟨p, by simp, hp, by rw [hkv], by rw [hkv]⟩
      · obtain ⟨q, hq, hqr, hk1, hk2⟩ := ih (offset + ((tids.getD p (0, 0)).2 -
          (tids.getD p (0, 0)).1)) kv hkv
        exact ⟨q, by simp [hq], hqr, hk1, hk2⟩
    · rw [if_neg hp] at hkv
      obtain ⟨q, hq, hqr, hk1, hk2⟩ := ih offset kv hkv
      exact ⟨q, by simp [hq], hqr, hk1, hk2⟩

/-! ### File-to-worker assignment and id ranges (spec-modelled)

`generate_read_list` and `get_idranges` live in `tools/distpartitioning/utils.py`,
which is not under `src/`; they are modelled from the spec (§4.1, §4.2, §9):
a deterministic, contiguous, balanced block split of `n` file/chunk indices
into `k` groups — `np.array_split(np.arange(n), k)` semantics — and partition
id ranges obtained by splitting the flattened per-chunk counts into
`num_parts` contiguous groups. -/

/-- Modelled from the spec: group sizes of `np.array_split(range(n), k)` —
the first `n % k` groups get `n / k + 1` indices, the rest `n / k`. -/
def array_split_sizes (n k : Nat) : List Nat :=
  (List.range k).map (fun i => if i < n % k then n / k + 1 else n / k)

/-- Contiguous index groups of the given sizes, starting at `start`. -/
def groups_of_sizes (start : Nat) : List Nat → List (List Nat)
  | [] => []
  | s :: rest => List.range' start s :: groups_of_sizes (start + s) rest

/-- Modelled from the spec: `generate_read_list(n, k)` — the deterministic
contiguous block split of file indices `0..n-1` into `k` groups (spec §4.2:
"round-robin or block split — deterministic and reproducible"). -/
def generate_read_list (n k : Nat) : List (List Nat) :=
  groups_of_sizes 0 (array_split_sizes n k)

/-- Modelled from the spec: the per-partition range sizes `get_idranges`
derives — partition `p` covers the chunks of group `p`, so its size is the
sum of those chunks' counts (spec §4.1: "splitting the flattened per-chunk
counts into `num_parts` contiguous, count-balanced groups"). -/
def get_idranges_sizes (counts : List Nat) (numParts : Nat) : List Nat :=
  (generate_read_list counts.length numParts).map
    (fun g => (g.map (fun i => counts.getD i 0)).sum)

/-- Modelled from the spec: the `(start, end)` type-id ranges `get_idranges`
returns, one interval per partition. -/
def get_idranges_tids (counts : List Nat) (numParts : Nat) : List (Nat × Nat) :=
  intervalsFrom 0 (get_idranges_sizes counts numParts)

theorem groups_of_sizes_length (sizes : List Nat) :
    ∀ start, (groups_of_sizes start sizes).length = sizes.length := by
  induction sizes with
  | nil => intro _; rfl
  | cons s rest ih => intro start; simp [groups_of_sizes, ih]

theorem groups_of_sizes_flatten (sizes : List Nat) :
    ∀ start, (groups_of_sizes start sizes).flatten = List.range' start sizes.sum := by
  induction sizes with
  | nil => intro _; rfl
  | cons s rest ih =>
    intro start
    simp only [groups_of_sizes, List.flatten_cons, ih, List.sum_cons]
    have h := List.range'_append start s rest.sum 1
    simp only [Nat.one_mul] at h
    rw [h, Nat.add_comm]

theorem array_split_sizes_sum (n : Nat) : ∀ k, 0 < k → (array_split_sizes n k).sum = n := by
  have key : ∀ (k q r : Nat), ((List.range k).map
      (fun i => if i < r then q + 1 else q)).sum = k * q + min r k := by
    intro k q r
    induction k with
    | zero => simp
    | succ m ih =>
      rw [List.range_succ, List.map_append, List.sum_append, ih]
      by_cases hm : m < r
      · rw [List.map_singleton, List.sum_singleton, if_pos hm]
        have : min r (m + 1) = m + 1 := by omega
        rw [this]
        have : min r m = m := by omega
        rw [this]
        ring
      · rw [List.map_singleton, List.sum_singleton, if_neg hm]
        have h1 : min r (m + 1) = r := by omega
        have h2 : min r m = r := by omega
        rw [h1, h2]
        ring
  intro k hk
  unfold array_split_sizes
  rw [key]
  have h1 : min (n % k) k = n % k := by
    have := Nat.mod_lt n hk
    omega
  rw [h1, Nat.add_comm, Nat.mod_add_div]

theorem generate_read_list_flatten (n : Nat) {k : Nat} (hk : 0 < k) :
    (generate_read_list n k).flatten = List.range n := by
  unfold generate_read_list
  rw [groups_of_sizes_flatten, array_split_sizes_sum n k hk, List.range_eq_range']

theorem generate_read_list_length (n k : Nat) :
    (generate_read_list n k).length = k := by
  unfold generate_read_list array_split_sizes
  rw [groups_of_sizes_length]
  simp

theorem range_map_getD (l : List β) (d : β) :
    (List.range l.length).map (fun i => l.getD i d) = l := by
  apply List.ext_getElem
  · simp
  · intro k h1 h2
    simp only [List.length_map, List.length_range] at h1
    rw [List.getElem_map, List.getElem_range, List.getD_eq_getElem _ _ h1]

theorem sum_map_sum_flatten (f : Nat → Nat) :
    ∀ L : List (List Nat),
      (L.map (fun g => (g.map f).sum)).sum = ((L.flatten).map f).sum := by
  intro L
  induction L with
  | nil => rfl
  | cons g gs ih =>
    simp only [List.map_cons, List.sum_cons, List.flatten_cons, List.map_append,
      List.sum_append, ih]

/-- The world of rank-local arrays arising from the shard-reading loop of
`get_dataset`: rank `r` reads and concatenates the files whose indices are in
`generate_read_list(num_files, world_size)[r]`. -/
def feature_world (files : List (List α)) (ws : Nat) : List (List α) :=
  (generate_read_list files.length ws).map
    (fun g => (g.map (fun i => files.getD i [])).flatten)

theorem feature_world_length (files : List (List α)) (ws : Nat) :
    (feature_world files ws).length = ws := by
  unfold feature_world
  rw [List.length_map, generate_read_list_length]

theorem feature_world_flatten (files : List (List α)) {ws : Nat} (hws : 0 < ws) :
    (feature_world files ws).flatten = files.flatten := by
  unfold feature_world
  have h := flatten_map_flatten_map (fun g : List Nat => g)
    (fun i => files.getD i []) (generate_read_list files.length ws)
  simp only [List.map_id_fun, id] at h
  rw [show (fun g : List Nat => (g.map (fun i => files.getD i [])).flatten) =
      (fun g : List Nat => (((fun g : List Nat => g) g).map
        (fun i => files.getD i [])).flatten) from rfl,
    h, List.map_id_fun', id_eq, generate_read_list_flatten _ hws, range_map_getD]

theorem get_idranges_sizes_length (counts : List Nat) (numParts : Nat) :
    (get_idranges_sizes counts numParts).length = numParts := by
  unfold get_idranges_sizes
  rw [List.length_map, generate_read_list_length]

theorem get_idranges_sizes_sum (counts : List Nat) {numParts : Nat}
    (h : 0 < numParts) : (get_idranges_sizes counts numParts).sum = counts.sum := by
  unfold get_idranges_sizes
  rw [sum_map_sum_flatten, generate_read_list_flatten _ h, range_map_getD]

/-- Round trip through the shuffle and the collection loop: on every rank the
loop recovers, per owned partition in ascending order, exactly the rows whose
global id fell in that partition's `[start, end)` range of the original
unshuffled concatenation, each keyed and paired with that range. -/
theorem collect_of_shuffle (world : List (List α)) (sizes : List Nat)
    (numParts ws rank : Nat) (tname fname : String)
    (hws : ws = world.length) (hrank : rank < ws)
    (hnp : sizes.length = numParts) (hsum : sizes.sum = world.flatten.length) :
    collect_loop_entries tname fname (intervalsFrom 0 sizes) ws rank
        (shuffle_rows world (intervalsFrom 0 sizes) numParts ws rank)
        (List.range numParts) 0 =
      (((List.range numParts).filter (fun p => map_partid_rank p ws = rank)).map
          (fun p => (feature_key tname fname ws p,
            pySlice world.flatten (boundary sizes p) (boundary sizes (p + 1)))),
        ((List.range numParts).filter (fun p => map_partid_rank p ws = rank)).map
          (fun p => (feature_key tname fname ws p,
            [(boundary sizes p, boundary sizes (p + 1))]))) := by
  rw [shuffle_rows_spec world sizes numParts ws rank hws hrank hnp hsum]
  have hmain := collect_loop_spec tname fname (intervalsFrom 0 sizes) ws rank
    (fun p => pySlice world.flatten (boundary sizes p) (boundary sizes (p + 1)))
    (List.range numParts) []
    (fun p hp _ => by
      have hpn : p < numParts := List.mem_range.mp hp
      rw [intervalsFrom_getD sizes 0 p (by omega)]
      simp only [Nat.zero_add]
      rw [pySlice_length (by rw [← hsum]; exact boundary_le_sum sizes (p + 1))])
  simp only [List.nil_append, List.length_nil] at hmain
  rw [hmain]
  congr 1
  apply List.map_congr_left
  intro p hp
  have hpn : p < numParts := List.mem_range.mp (List.mem_filter.mp hp).1
  rw [intervalsFrom_getD sizes 0 p (by omega)]
  simp

/-! ## Claim theorems -/

/-- C1: for every invocation of `_shuffle_data` across a world of ranks whose
partition id ranges (`tids`) are contiguous, non-overlapping and cover the
virtual concatenation of all ranks' local arrays in rank order (that is,
`tids = intervalsFrom 0 sizes` with `sizes` summing to the total row count),
the multiset of rows across all ranks' returned tensors equals the multiset
of rows across all ranks' input tensors — no row lost, none duplicated —
including when some ranks' local arrays have zero rows. -/
theorem C1_shuffle_row_conservation {α : Type} (world : List (List α))
    (sizes : List Nat) (numParts ws : Nat)
    (hws : ws = world.length) (hnp : sizes.length = numParts)
    (hsum : sizes.sum = world.flatten.length) :
    List.Perm
      (((List.range ws).map
        (fun i => shuffle_rows world (intervalsFrom 0 sizes) numParts ws i)).flatten)
      world.flatten :=
  shuffle_conservation world sizes numParts ws hws hnp hsum

/-- Witness for C1 at a concrete world in which rank 1 holds zero rows and
one partition is empty. -/
theorem C1_shuffle_row_conservation_witness :
    ((2 : Nat) = ([[10, 20, 30], []] : List (List Nat)).length ∧
      ([2, 1, 0] : List Nat).length = 3 ∧
      ([2, 1, 0] : List Nat).sum =
        ([[10, 20, 30], []] : List (List Nat)).flatten.length) ∧
    List.Perm
      (((List.range 2).map
        (fun i => shuffle_rows [[10, 20, 30], []] (intervalsFrom 0 [2, 1, 0]) 3 2 i)).flatten)
      ([[10, 20, 30], []] : List (List Nat)).flatten :=
  ⟨⟨rfl, rfl, rfl⟩,
    C1_shuffle_row_conservation [[10, 20, 30], []] [2, 1, 0] 3 2 rfl rfl rfl⟩

/-- C2: round trip — after `_shuffle_data` returns, sequentially slicing each
rank's shuffled tensor by the sizes `end - start` of the partition id ranges
the rank owns, in ascending partition order (exactly what the collection loop
of `get_dataset` does), yields for each owned partition precisely the rows
whose global id fell in that partition's `[start, end)` range of the original
unshuffled concatenated data. -/
theorem C2_round_trip {α : Type} (world : List (List α)) (sizes : List Nat)
    (numParts ws rank : Nat) (tname fname : String)
    (hws : ws = world.length) (hrank : rank < ws)
    (hnp : sizes.length = numParts) (hsum : sizes.sum = world.flatten.length) :
    collect_loop_entries tname fname (intervalsFrom 0 sizes) ws rank
        (shuffle_rows world (intervalsFrom 0 sizes) numParts ws rank)
        (List.range numParts) 0 =
      (((List.range numParts).filter (fun p => map_partid_rank p ws = rank)).map
          (fun p => (feature_key tname fname ws p,
            pySlice world.flatten (boundary sizes p) (boundary sizes (p + 1)))),
        ((List.range numParts).filter (fun p => map_partid_rank p ws = rank)).map
          (fun p => (feature_key tname fname ws p,
            [(boundary sizes p, boundary sizes (p + 1))]))) :=
  collect_of_shuffle world sizes numParts ws rank tname fname hws hrank hnp hsum

/-- Witness for C2: two ranks, four partitions of two rows each; rank 0 owns
partitions 0 and 2 and recovers exactly rows 0,1 and 4,5 of the original
concatenation. -/
theorem C2_round_trip_witness :
    ((2 : Nat) = ([[0, 1, 2, 3], [4, 5, 6, 7]] : List (List Nat)).length ∧
      (0 : Nat) < 2 ∧ ([2, 2, 2, 2] : List Nat).length = 4 ∧
      ([2, 2, 2, 2] : List Nat).sum =
        ([[0, 1, 2, 3], [4, 5, 6, 7]] : List (List Nat)).flatten.length) ∧
    collect_loop_entries "n0" "f0" (intervalsFrom 0 [2, 2, 2, 2]) 2 0
        (shuffle_rows [[0, 1, 2, 3], [4, 5, 6, 7]] (intervalsFrom 0 [2, 2, 2, 2]) 4 2 0)
        (List.range 4) 0 =
      (((List.range 4).filter (fun p => map_partid_rank p 2 = 0)).map
          (fun p => (feature_key "n0" "f0" 2 p,
            pySlice ([[0, 1, 2, 3], [4, 5, 6, 7]] : List (List Nat)).flatten
              (boundary [2, 2, 2, 2] p) (boundary [2, 2, 2, 2] (p + 1)))),
        ((List.range 4).filter (fun p => map_partid_rank p 2 = 0)).map
          (fun p => (feature_key "n0" "f0" 2 p,
            [(boundary [2, 2, 2, 2] p, boundary [2, 2, 2, 2] (p + 1))]))) :=
  ⟨⟨rfl, by decide, rfl, rfl⟩,
    C2_round_trip [[0, 1, 2, 3], [4, 5, 6, 7]] [2, 2, 2, 2] 4 2 0 "n0" "f0"
      rfl (by decide) rfl rfl⟩

/-- C3: for every rank, the tensor `_shuffle_data` returns is the
concatenation of source-rank contributions in ascending source-rank index
(the rank's own self-destined slice — which bypasses the collective — sits at
its own rank position `j = i` of the concatenation, and dropping the `None`
placeholders of silent peers does not change the rows); row order within any
single source rank's contribution is preserved (it is a sublist of that
source's local array); and the result is not guaranteed to be sorted by
global id — there is an invocation whose output is unsorted. -/
theorem C3_output_ordering :
    (∀ (α : Type) (world : List (List α)) (tids : List (Nat × Nat))
        (numParts ws i : Nat), i < ws →
      shuffle_rows world tids numParts ws i =
        ((List.range ws).map
          (fun j => data_input_entry world tids numParts ws j i)).flatten) ∧
    (∀ (α : Type) (world : List (List α)) (sizes : List Nat)
        (numParts ws i j : Nat), sizes.length = numParts →
      List.Sublist (data_input_entry world (intervalsFrom 0 sizes) numParts ws j i)
        (world.getD j [])) ∧
    (∃ (world : List (List Nat)) (tids : List (Nat × Nat)) (numParts ws i : Nat),
      i < ws ∧ ¬ (shuffle_rows world tids numParts ws i).Sorted (· ≤ ·)) := by
  refine ⟨?_, ?_, ?_⟩
  · intro α world tids numParts ws i hi
    exact shuffle_rows_eq_flatten world tids numParts ws i hi
  · intro α world sizes numParts ws i j hnp
    rw [data_input_entry_eq]
    set d := world.getD j [] with hd
    set gs := global_start world j with hgs
    set owned := (List.range numParts).filter (fun p => map_partid_rank p ws = i)
      with howned
    have hsl : ∀ p ∈ owned,
        part_slice d gs (intervalsFrom 0 sizes |>.getD p (0, 0)) =
          pySlice d (boundary sizes p - gs) (boundary sizes (p + 1) - gs) := by
      intro p hp
      have hpn : p < numParts := List.mem_range.mp (List.mem_filter.mp hp).1
      rw [intervalsFrom_getD sizes 0 p (by omega), part_slice_eq_pySlice]
      simp
    rw [List.map_congr_left hsl]
    have key := flatten_pySlice_sublist d
      (owned.map (fun p => (boundary sizes p - gs, boundary sizes (p + 1) - gs))) 0
      (fun pr hpr => by
        obtain ⟨p, _, rfl⟩ := List.mem_map.mp hpr
        exact Nat.sub_le_sub_right (boundary_mono sizes (Nat.le_succ p)) gs)
      (fun pr _ => Nat.zero_le _)
      (by
        have h1 : owned.Pairwise (· < ·) :=
          (List.pairwise_lt_range numParts).sublist (List.filter_sublist _)
        apply h1.map
        intro a b hab
        exact Nat.sub_le_sub_right (boundary_mono sizes (by omega)) gs)
    rw [List.map_map, List.drop_zero] at key
    exact key
  · exact ⟨[[0, 1, 2, 3]], [(2, 4), (0, 2)], 2, 1, 0, by decide, by decide⟩

/-- Witness for C3 at a concrete two-rank world: the structural equation at
rank 0 and the order-preservation of rank 1's contribution. -/
theorem C3_output_ordering_witness :
    shuffle_rows [[0, 1, 2, 3], [4, 5, 6, 7]] (intervalsFrom 0 [2, 2, 2, 2]) 4 2 0 =
      ((List.range 2).map
        (fun j => data_input_entry [[0, 1, 2, 3], [4, 5, 6, 7]]
          (intervalsFrom 0 [2, 2, 2, 2]) 4 2 j 0)).flatten ∧
    List.Sublist
      (data_input_entry [[0, 1, 2, 3], [4, 5, 6, 7]]
        (intervalsFrom 0 [2, 2, 2, 2]) 4 2 1 0)
      (([[0, 1, 2, 3], [4, 5, 6, 7]] : List (List Nat)).getD 1 []) :=
  ⟨C3_output_ordering.1 Nat [[0, 1, 2, 3], [4, 5, 6, 7]]
      (intervalsFrom 0 [2, 2, 2, 2]) 4 2 0 (by decide),
    C3_output_ordering.2.1 Nat [[0, 1, 2, 3], [4, 5, 6, 7]] [2, 2, 2, 2] 4 2 0 1 rfl⟩

theorem rev_data_type_id (t : TorchDtype) :
    REV_DATA_TYPE_ID (DATA_TYPE_ID t) = t := by
  cases t <;> rfl

theorem getD_map_zero {β : Type v} (f : α → β) (l : List α) (d : α) (d' : β)
    (h : 0 < l.length) : (l.map f).getD 0 d' = f (l.getD 0 d) := by
  rw [List.getD_eq_getElem _ _ (by simpa), List.getElem_map,
    List.getD_eq_getElem _ _ h]

/-- C4: the element type and dimensionality every rank uses for placeholders
and casts are taken from entry 0 of the all-gathered descriptors; when rank
0's local array is non-empty (the stated precondition), every rank's returned
tensor carries rank 0's dtype and dimensionality regardless of its own local
dtype; and when rank 0's array is empty while another rank's is not, the
inferred dtype is silently wrong — the shuffle still returns a tensor, tagged
with rank 0's (placeholder) dtype rather than the dtype of the data it
actually contains. -/
theorem C4_dtype_from_rank_zero :
    (∀ (α : Type) (worldT : List (TaggedData α)) (tids : List (Nat × Nat))
        (numParts ws i : Nat), ws = worldT.length → i < ws →
      (worldT.getD 0 default).rows ≠ [] →
      (shuffle_output worldT tids numParts ws i).dtype =
          (worldT.getD 0 default).dtype ∧
        (shuffle_output worldT tids numParts ws i).dim =
          (worldT.getD 0 default).dim) ∧
    (∃ (worldT : List (TaggedData Nat)) (tids : List (Nat × Nat))
        (numParts ws j : Nat), j < ws ∧
      (worldT.getD 0 default).rows = [] ∧ (worldT.getD j default).rows ≠ [] ∧
      (shuffle_output worldT tids numParts ws j).rows ≠ [] ∧
      (shuffle_output worldT tids numParts ws j).dtype ≠
        (worldT.getD j default).dtype) := by
  constructor
  · intro α worldT tids numParts ws i hws hi _
    have hlen : 0 < worldT.length := by omega
    constructor
    · show REV_DATA_TYPE_ID (((worldT.map data_shape).getD 0 []).getD 2 0) = _
      rw [getD_map_zero data_shape worldT default [] hlen]
      show REV_DATA_TYPE_ID (DATA_TYPE_ID (worldT.getD 0 default).dtype) = _
      rw [rev_data_type_id]
    · show ((worldT.map data_shape).getD 0 []).getD 1 0 = _
      rw [getD_map_zero data_shape worldT default [] hlen]
      rfl
  · refine ⟨[⟨[], 1, .float64⟩, ⟨[10, 20], 1, .int64⟩], [(0, 1), (1, 2)],
      2, 2, 1, by decide, rfl, by decide, by decide, by decide⟩

/-- Witness for C4: rank 1 locally reads `int8`-tagged data but, rank 0's
array being non-empty and `int32`-tagged, rank 1's output is tagged `int32`
with rank 0's dimensionality. -/
theorem C4_dtype_from_rank_zero_witness :
    ((2 : Nat) = ([⟨[5, 6], 2, .int32⟩, ⟨[7], 2, .int8⟩] :
        List (TaggedData Nat)).length ∧ (1 : Nat) < 2 ∧
      (([⟨[5, 6], 2, .int32⟩, ⟨[7], 2, .int8⟩] :
        List (TaggedData Nat)).getD 0 default).rows ≠ []) ∧
    ((shuffle_output [⟨[5, 6], 2, .int32⟩, ⟨[7], 2, .int8⟩]
        [(0, 2), (2, 3)] 2 2 1).dtype =
      (([⟨[5, 6], 2, .int32⟩, ⟨[7], 2, .int8⟩] :
        List (TaggedData Nat)).getD 0 default).dtype ∧
      (shuffle_output [⟨[5, 6], 2, .int32⟩, ⟨[7], 2, .int8⟩]
        [(0, 2), (2, 3)] 2 2 1).dim =
      (([⟨[5, 6], 2, .int32⟩, ⟨[7], 2, .int8⟩] :
        List (TaggedData Nat)).getD 0 default).dim) :=
  ⟨⟨rfl, by decide, by decide⟩,
    C4_dtype_from_rank_zero.1 Nat [⟨[5, 6], 2, .int32⟩, ⟨[7], 2, .int8⟩]
      [(0, 2), (2, 3)] 2 2 1 rfl (by decide) (by decide)⟩

/-- The accumulated `node_features` / `node_feature_tids` (resp. edge)
dictionaries over every processed `(type, feature)` pair, as insertion-ordered
association lists. -/
def build_feature_dicts (numParts ws rank : Nat) :
    List (String × String × List (Nat × Nat) × List α) →
      List (String × List α) × List (String × List (Nat × Nat))
  | [] => ([], [])
  | (tname, fname, tids, data) :: rest =>
    let e := collect_loop_entries tname fname tids ws rank data
      (List.range numParts) 0
    let r := build_feature_dicts numParts ws rank rest
    (e.1 ++ r.1, e.2 ++ r.2)

/-- C10: on every rank the features dictionary and the feature-tids
dictionary receive identical key sequences; every key has the form
`"{type_name}/{feature_name}/{p // world_size}"` for some partition `p` with
`p mod world_size = rank`, and the tids value stored under such a key is the
one-element list holding exactly that partition's `(start, end)` range. -/
theorem C10_feature_dict_keys {α : Type}
    (inputs : List (String × String × List (Nat × Nat) × List α))
    (numParts ws rank : Nat) :
    ((build_feature_dicts numParts ws rank inputs).1).map Prod.fst =
      ((build_feature_dicts numParts ws rank inputs).2).map Prod.fst ∧
    ∀ kv ∈ (build_feature_dicts numParts ws rank inputs).2,
      ∃ tname fname tids data p, (tname, fname, tids, data) ∈ inputs ∧
        p < numParts ∧ map_partid_rank p ws = rank ∧
        kv.1 = tname ++ "/" ++ fname ++ "/" ++ toString (p / ws) ∧
        kv.2 = [tids.getD p (0, 0)] := by
  induction inputs with
  | nil => exact ⟨rfl, by intro kv hkv; simp [build_feature_dicts] at hkv⟩
  | cons inp rest ih =>
    obtain ⟨tname, fname, tids, data⟩ := inp
    constructor
    · show ((collect_loop_entries tname fname tids ws rank data
            (List.range numParts) 0).1 ++
          (build_feature_dicts numParts ws rank rest).1).map Prod.fst =
        ((collect_loop_entries tname fname tids ws rank data
            (List.range numParts) 0).2 ++
          (build_feature_dicts numParts ws rank rest).2).map Prod.fst
      rw [List.map_append, List.map_append, collect_keys_eq, ih.1]
    · intro kv hkv
      rw [show (build_feature_dicts numParts ws rank
          ((tname, fname, tids, data) :: rest)).2 =
          (collect_loop_entries tname fname tids ws rank data
            (List.range numParts) 0).2 ++
            (build_feature_dicts numParts ws rank rest).2 from rfl,
        List.mem_append] at hkv
      rcases hkv with hkv | hkv
      · obtain ⟨p, hp, hpr, hk1, hk2⟩ :=
          collect_tids_entries tname fname tids ws rank data
            (List.range numParts) 0 kv hkv
        exact ⟨tname, fname, tids, data, p, by simp,
          List.mem_range.mp hp, hpr, hk1, hk2⟩
      · obtain ⟨tn, fn, td, dt, p, hmem, hp, hpr, hk1, hk2⟩ := ih.2 kv hkv
        exact ⟨tn, fn, td, dt, p, by simp [hmem], hp, hpr, hk1, hk2⟩

/-- Witness for C10 at a concrete invocation: rank 1 of 2 with 4 partitions
and two feature inputs; the second dictionary entry's key and range are
produced by partition 3. -/
theorem C10_feature_dict_keys_witness :
    ((build_feature_dicts 4 2 1
        [("user", "feat", [(0, 2), (2, 4), (4, 6), (6, 9)], [0, 1, 2, 3])]).1).map
        Prod.fst =
      ((build_feature_dicts 4 2 1
        [("user", "feat", [(0, 2), (2, 4), (4, 6), (6, 9)], [0, 1, 2, 3])]).2).map
        Prod.fst ∧
    ∃ tname fname tids data p,
      (tname, fname, tids, data) ∈
        ([("user", "feat", [(0, 2), (2, 4), (4, 6), (6, 9)],
          ([0, 1, 2, 3] : List Nat))] :
          List (String × String × List (Nat × Nat) × List Nat)) ∧
      p < 4 ∧ map_partid_rank p 2 = 1 ∧
      (("user/feat/1", [((6 : Nat), (9 : Nat))]) :
          String × List (Nat × Nat)).1 =
        tname ++ "/" ++ fname ++ "/" ++ toString (p / 2) ∧
      (("user/feat/1", [((6 : Nat), (9 : Nat))]) :
          String × List (Nat × Nat)).2 = [tids.getD p (0, 0)] :=
  ⟨(C10_feature_dict_keys
      [("user", "feat", [(0, 2), (2, 4), (4, 6), (6, 9)], [0, 1, 2, 3])] 4 2 1).1,
    (C10_feature_dict_keys
      [("user", "feat", [(0, 2), (2, 4), (4, 6), (6, 9)], [0, 1, 2, 3])] 4 2 1).2
      ("user/feat/1", [(6, 9)]) (by decide)⟩

/-! ### Reading edges and building the four parallel columns

Model of `get_dataset` lines 511-640: per canonical edge type, the rank reads
the chunks assigned (through `generate_read_list(num_chunks, num_parts)`) to
the partitions it owns, converts type-relative endpoint ids to global node
ids by adding the node-type offsets, tags rows with the edge-type id, and
generates the global type-relative edge-id column from its owned partitions'
id ranges. -/

/-- The raw per-edge-type inputs: `chunks` holds each chunk file's
`(src, dst)` type-relative id pairs, `counts` the schema's per-chunk edge
counts (`num_edges_per_chunk`), the offsets the node-type global offsets of
the two endpoint types, and `etypeId` the dense edge-type id. -/
structure EtypeRaw where
  chunks : List (List (Nat × Nat))
  counts : List Nat
  srcOffset : Nat
  dstOffset : Nat
  etypeId : Nat

/-- Chunk indices the rank reads for one edge type:
`np.concatenate([read_list[p] for p owned by rank])`. -/
def assigned_chunk_ids (numChunks numParts ws rank : Nat) : List Nat :=
  (((List.range numParts).filter (fun p => map_partid_rank p ws = rank)).map
    (fun p => (generate_read_list numChunks numParts).getD p [])).flatten

/-- `src_ids = np.concatenate(...)` over the chunks this rank reads. -/
def etype_src_ids (t : EtypeRaw) (numParts ws rank : Nat) : List Nat :=
  ((assigned_chunk_ids t.chunks.length numParts ws rank).map
    (fun idx => (t.chunks.getD idx []).map Prod.fst)).flatten

/-- `dst_ids = np.concatenate(...)` over the chunks this rank reads. -/
def etype_dst_ids (t : EtypeRaw) (numParts ws rank : Nat) : List Nat :=
  ((assigned_chunk_ids t.chunks.length numParts ws rank).map
    (fun idx => (t.chunks.getD idx []).map Prod.snd)).flatten

/-- `GLOBAL_SRC_ID` contribution: `src_ids + ntype_gnid_offset[src_ntype]`. -/
def etype_global_src (t : EtypeRaw) (numParts ws rank : Nat) : List Nat :=
  (etype_src_ids t numParts ws rank).map (fun x => x + t.srcOffset)

/-- `GLOBAL_DST_ID` contribution: `dst_ids + ntype_gnid_offset[dst_ntype]`. -/
def etype_global_dst (t : EtypeRaw) (numParts ws rank : Nat) : List Nat :=
  (etype_dst_ids t numParts ws rank).map (fun x => x + t.dstOffset)

/-- `ETYPE_ID` contribution: `etype_id * np.ones(shape=src_ids.shape)`. -/
def etype_etype_ids (t : EtypeRaw) (numParts ws rank : Nat) : List Nat :=
  (etype_src_ids t numParts ws rank).map (fun _ => t.etypeId)

/-- `GLOBAL_TYPE_EID` contribution: `np.arange(start, end)` for every owned
partition's id range of this edge type. -/
def etype_global_type_eid (t : EtypeRaw) (numParts ws rank : Nat) : List Nat :=
  (((List.range numParts).filter (fun p => map_partid_rank p ws = rank)).map
    (fun p =>
      List.range' ((get_idranges_tids t.counts numParts).getD p (0, 0)).1
        (((get_idranges_tids t.counts numParts).getD p (0, 0)).2 -
          ((get_idranges_tids t.counts numParts).getD p (0, 0)).1))).flatten

/-- The four columns of `edge_datadict` after the final per-column
`np.concatenate` over every edge type. -/
def edge_datadict_cols (etypes : List EtypeRaw) (numParts ws rank : Nat) :
    List Nat × List Nat × List Nat × List Nat :=
  ((etypes.map (fun t => etype_global_src t numParts ws rank)).flatten,
    (etypes.map (fun t => etype_global_dst t numParts ws rank)).flatten,
    (etypes.map (fun t => etype_global_type_eid t numParts ws rank)).flatten,
    (etypes.map (fun t => etype_etype_ids t numParts ws rank)).flatten)

/-- Modelled from the spec: the per-node-type global-id offsets that
`get_idranges` also returns (`utils.py` is not under `src/`).  Spec §4.1: "a
global offset per type equal to the cumulative sum of total counts of
preceding types". -/
def ntype_gnid_offset (typeCounts : List (String × Nat)) (name : String) : Nat :=
  match typeCounts with
  | [] => 0
  | (n, c) :: rest => if n = name then 0 else c + ntype_gnid_offset rest name

/-! ### Schema failure modes -/

/-- Error taxonomy of spec §7: `SchemaError` covers malformed canonical
edge-type strings and unknown array-format names (realized in the source as a
fatal `assert` and a `ValueError` respectively), `ShapeInvariantError` the
post-shuffle size and parallel-column shape asserts. -/
inductive PipelineError where
  | schemaError (msg : String)
  | shapeInvariantError (msg : String)
deriving DecidableEq, Repr

/-- Python `s.split(sep)` on a single-character separator, over the character
list: consecutive separators yield empty tokens and `"".split(sep) = [""]`. -/
def py_split_aux (sep : Char) : List Char → List Char → List (List Char)
  | [], acc => [acc.reverse]
  | c :: cs, acc =>
    if c = sep then acc.reverse :: py_split_aux sep cs []
    else py_split_aux sep cs (c :: acc)

/-- Python `s.split(sep)` returning strings. -/
def py_split (sep : Char) (s : String) : List String :=
  (py_split_aux sep s.data []).map (fun l => ⟨l⟩)

/-- The canonical edge-type check of `get_dataset`
(`tokens = etype_name.split(":"); assert len(tokens) == 3`), returning the
source and destination node-type names. -/
def parse_canonical_etype (etype_name : String) : Except PipelineError (String × String) :=
  let tokens := py_split ':' etype_name
  if tokens.length = 3 then .ok ((tokens.getD 0 "", tokens.getD 2 ""))
  else .error (.schemaError ("canonical etype must be src:rel:dst, got " ++ etype_name))

/-- The feature-format assertion of `get_dataset`
(`assert fmt in [numpy, parquet]`). -/
def check_feature_format (name : String) : Except PipelineError Unit :=
  if name = "numpy" ∨ name = "parquet" then .ok ()
  else .error (.schemaError ("unknown feature format " ++ name))

/-- The edge-file format dispatch of `get_dataset`
(`if fmt == csv: ... elif fmt == parquet: ... else: raise ValueError`). -/
def check_edge_format (name : String) : Except PipelineError Unit :=
  if name = "csv" then .ok ()
  else if name = "parquet" then .ok ()
  else .error (.schemaError ("Unknown edge format " ++ name))

/-! ### Shapes of the edge columns -/

theorem getD_map_lt {β : Type v} (f : α → β) (l : List α) (d : α) (d' : β)
    {i : Nat} (h : i < l.length) : (l.map f).getD i d' = f (l.getD i d) := by
  rw [List.getD_eq_getElem _ _ (by simpa), List.getElem_map,
    List.getD_eq_getElem _ _ h]

theorem getD_map_length_all (l : List (List α)) (i : Nat) :
    (l.map List.length).getD i 0 = (l.getD i []).length := by
  by_cases h : i < l.length
  · exact getD_map_lt List.length l [] 0 h
  · push_neg at h
    rw [List.getD_eq_default _ _ (by simpa using h),
      List.getD_eq_default _ _ h]
    rfl

theorem length_flatten_map (f : β → List α) (l : List β) :
    ((l.map f).flatten).length = (l.map (fun x => (f x).length)).sum := by
  rw [List.length_flatten, List.map_map]
  rfl

/-- Per edge type, the number of rows this rank reads equals the total size
of the id ranges of the partitions it owns — provided the schema's per-chunk
counts match the chunk files' actual row counts. -/
theorem etype_src_eq_eid_length (t : EtypeRaw) (numParts ws rank : Nat)
    (hc : t.counts = t.chunks.map List.length) (_hp : 0 < numParts) :
    (etype_src_ids t numParts ws rank).length =
      (etype_global_type_eid t numParts ws rank).length := by
  unfold etype_src_ids etype_global_type_eid assigned_chunk_ids
  rw [length_flatten_map, length_flatten_map]
  have hflat : ∀ L : List Nat,
      ((L.map (fun idx => ((t.chunks.getD idx []).map Prod.fst).length)).sum) =
        (L.map (fun idx => (t.chunks.getD idx []).length)).sum := by
    intro L
    congr 1
    apply List.map_congr_left
    intro idx _
    rw [List.length_map]
  -- rewrite the source side as a sum over owned partitions of per-group sums
  have hsrc : ((((List.range numParts).filter
        (fun p => map_partid_rank p ws = rank)).map
          (fun p => (generate_read_list t.chunks.length numParts).getD p [])).flatten.map
        (fun idx => ((t.chunks.getD idx []).map Prod.fst).length)).sum =
      (((List.range numParts).filter (fun p => map_partid_rank p ws = rank)).map
        (fun p => (((generate_read_list t.chunks.length numParts).getD p []).map
          (fun idx => (t.chunks.getD idx []).length)).sum)).sum := by
    rw [hflat, ← sum_map_sum_flatten]
    rw [List.map_map]
    rfl
  rw [hsrc]
  congr 1
  apply List.map_congr_left
  intro p hp'
  have hpn : p < numParts := List.mem_range.mp (List.mem_filter.mp hp').1
  have hlen_sizes : (get_idranges_sizes t.counts numParts).length = numParts :=
    get_idranges_sizes_length ..
  rw [List.length_range']
  unfold get_idranges_tids
  rw [intervalsFrom_getD _ 0 p (by omega)]
  simp only [Nat.zero_add]
  rw [boundary_succ _ (by omega)]
  have hszp : (get_idranges_sizes t.counts numParts).getD p 0 =
      (((generate_read_list t.counts.length numParts).getD p []).map
        (fun i => t.counts.getD i 0)).sum := by
    unfold get_idranges_sizes
    rw [getD_map_lt _ _ [] 0 (by rw [generate_read_list_length]; omega)]
  rw [show boundary (get_idranges_sizes t.counts numParts) p +
      (get_idranges_sizes t.counts numParts).getD p 0 -
      boundary (get_idranges_sizes t.counts numParts) p =
      (get_idranges_sizes t.counts numParts).getD p 0 by omega, hszp]
  have hcl : t.counts.length = t.chunks.length := by rw [hc, List.length_map]
  rw [hcl]
  congr 1
  apply List.map_congr_left
  intro idx _
  rw [hc, getD_map_length_all]

theorem forall₂_map_map {β : Type v} {γ : Type w} {R : β → γ → Prop}
    (f : Nat → β) (g : Nat → γ) :
    ∀ l : List Nat, (∀ x ∈ l, R (f x) (g x)) →
      List.Forall₂ R (l.map f) (l.map g) := by
  intro l
  induction l with
  | nil => intro _; exact List.Forall₂.nil
  | cons x xs ih =>
    intro h
    exact List.Forall₂.cons (h x (by simp)) (ih (fun y hy => h y (by simp [hy])))

/-- C5: the assembler's fatal assertions hold on every valid run — (a) for
each produced feature entry, the shuffled block's row count equals
`end - start` of the single id range recorded for that key; (b) after the
final concatenation the four parallel edge columns (global source id, global
destination id, global type-relative edge id, edge-type id) have identical
shapes.  Valid-schema preconditions: the feature files partition the feature
rows (the world is built by `generate_read_list`), and the schema's
per-chunk edge counts equal the edge chunk files' actual row counts. -/
theorem C5_assembler_asserts :
    (∀ (α : Type) (files : List (List α)) (numParts ws rank : Nat)
        (tname fname : String), 0 < numParts → rank < ws →
      List.Forall₂ (fun fkv tkv => fkv.1 = tkv.1 ∧
          fkv.2.length = (tkv.2.getD 0 (0, 0)).2 - (tkv.2.getD 0 (0, 0)).1)
        (collect_loop_entries tname fname
          (get_idranges_tids (files.map List.length) numParts) ws rank
          (shuffle_rows (feature_world files ws)
            (get_idranges_tids (files.map List.length) numParts) numParts ws rank)
          (List.range numParts) 0).1
        (collect_loop_entries tname fname
          (get_idranges_tids (files.map List.length) numParts) ws rank
          (shuffle_rows (feature_world files ws)
            (get_idranges_tids (files.map List.length) numParts) numParts ws rank)
          (List.range numParts) 0).2) ∧
    (∀ (etypes : List EtypeRaw) (numParts ws rank : Nat), 0 < numParts →
      (∀ t ∈ etypes, t.counts = t.chunks.map List.length) →
      (edge_datadict_cols etypes numParts ws rank).1.length =
          (edge_datadict_cols etypes numParts ws rank).2.1.length ∧
        (edge_datadict_cols etypes numParts ws rank).2.1.length =
          (edge_datadict_cols etypes numParts ws rank).2.2.1.length ∧
        (edge_datadict_cols etypes numParts ws rank).2.2.1.length =
          (edge_datadict_cols etypes numParts ws rank).2.2.2.length) := by
  constructor
  · intro α files numParts ws rank tname fname hnp hrank
    have hws0 : 0 < ws := by omega
    have hco := collect_of_shuffle (feature_world files ws)
      (get_idranges_sizes (files.map List.length) numParts) numParts ws rank
      tname fname (feature_world_length files ws).symm hrank
      (get_idranges_sizes_length ..)
      (by
        rw [get_idranges_sizes_sum _ hnp, feature_world_flatten files hws0,
          List.length_flatten])
    unfold get_idranges_tids
    rw [show (collect_loop_entries tname fname
        (intervalsFrom 0 (get_idranges_sizes (files.map List.length) numParts))
        ws rank (shuffle_rows (feature_world files ws)
          (intervalsFrom 0 (get_idranges_sizes (files.map List.length) numParts))
          numParts ws rank) (List.range numParts) 0) =
        (((List.range numParts).filter (fun p => map_partid_rank p ws = rank)).map
          (fun p => (feature_key tname fname ws p,
            pySlice (feature_world files ws).flatten
              (boundary (get_idranges_sizes (files.map List.length) numParts) p)
              (boundary (get_idranges_sizes (files.map List.length) numParts) (p + 1)))),
          ((List.range numParts).filter (fun p => map_partid_rank p ws = rank)).map
            (fun p => (feature_key tname fname ws p,
              [(boundary (get_idranges_sizes (files.map List.length) numParts) p,
                boundary (get_idranges_sizes (files.map List.length) numParts) (p + 1))])))
      from hco]
    apply forall₂_map_map
    intro p _
    refine ⟨rfl, ?_⟩
    simp only [List.getD_cons_zero]
    rw [pySlice_length]
    rw [feature_world_flatten files hws0, List.length_flatten,
      ← get_idranges_sizes_sum (files.map List.length) hnp]
    exact boundary_le_sum ..
  · intro etypes numParts ws rank hnp hcounts
    unfold edge_datadict_cols
    simp only
    rw [length_flatten_map, length_flatten_map, length_flatten_map,
      length_flatten_map]
    refine ⟨?_, ?_, ?_⟩
    · congr 1
      apply List.map_congr_left
      intro t _
      unfold etype_global_src etype_global_dst etype_dst_ids etype_src_ids
      rw [List.length_map, List.length_map, length_flatten_map, length_flatten_map]
      congr 1
      apply List.map_congr_left
      intro idx _
      rw [List.length_map, List.length_map]
    · congr 1
      apply List.map_congr_left
      intro t ht
      unfold etype_global_dst etype_dst_ids
      rw [List.length_map, length_flatten_map]
      have h1 := etype_src_eq_eid_length t numParts ws rank (hcounts t ht) hnp
      unfold etype_src_ids at h1
      rw [length_flatten_map] at h1
      rw [← h1]
      congr 1
      apply List.map_congr_left
      intro idx _
      rw [List.length_map, List.length_map]
    · congr 1
      apply List.map_congr_left
      intro t ht
      have h1 := etype_src_eq_eid_length t numParts ws rank (hcounts t ht) hnp
      unfold etype_etype_ids
      rw [← h1, List.length_map]

/-- Witness for C5 at concrete inputs: a 4-file feature with uneven file
sizes on 2 ranks and 2 partitions, and one edge type with 2 chunks spread
over 2 partitions. -/
theorem C5_assembler_asserts_witness :
    ((0 : Nat) < 2 ∧ (1 : Nat) < 2 ∧
      List.Forall₂ (fun fkv tkv => fkv.1 = tkv.1 ∧
          fkv.2.length = (tkv.2.getD 0 (0, 0)).2 - (tkv.2.getD 0 (0, 0)).1)
        (collect_loop_entries "n0" "f0"
          (get_idranges_tids ([[0], [1, 2], [], [3, 4]].map List.length) 2) 2 1
          (shuffle_rows (feature_world [[0], [1, 2], [], [3, 4]] 2)
            (get_idranges_tids ([[0], [1, 2], [], [3, 4]].map List.length) 2) 2 2 1)
          (List.range 2) 0).1
        (collect_loop_entries "n0" "f0"
          (get_idranges_tids ([[0], [1, 2], [], [3, 4]].map List.length) 2) 2 1
          (shuffle_rows (feature_world [[0], [1, 2], [], [3, 4]] 2)
            (get_idranges_tids ([[0], [1, 2], [], [3, 4]].map List.length) 2) 2 2 1)
          (List.range 2) 0).2) ∧
    ((edge_datadict_cols [⟨[[(0, 1), (2, 0)], [(1, 1)]], [2, 1], 0, 5, 0⟩]
        2 2 0).1.length =
      (edge_datadict_cols [⟨[[(0, 1), (2, 0)], [(1, 1)]], [2, 1], 0, 5, 0⟩]
        2 2 0).2.1.length ∧
      (edge_datadict_cols [⟨[[(0, 1), (2, 0)], [(1, 1)]], [2, 1], 0, 5, 0⟩]
        2 2 0).2.1.length =
      (edge_datadict_cols [⟨[[(0, 1), (2, 0)], [(1, 1)]], [2, 1], 0, 5, 0⟩]
        2 2 0).2.2.1.length ∧
      (edge_datadict_cols [⟨[[(0, 1), (2, 0)], [(1, 1)]], [2, 1], 0, 5, 0⟩]
        2 2 0).2.2.1.length =
      (edge_datadict_cols [⟨[[(0, 1), (2, 0)], [(1, 1)]], [2, 1], 0, 5, 0⟩]
        2 2 0).2.2.2.length) :=
  ⟨⟨by decide, by decide,
      C5_assembler_asserts.1 Nat [[0], [1, 2], [], [3, 4]] 2 2 1 "n0" "f0"
        (by decide) (by decide)⟩,
    C5_assembler_asserts.2 [⟨[[(0, 1), (2, 0)], [(1, 1)]], [2, 1], 0, 5, 0⟩]
      2 2 0 (by decide) (by decide)⟩

/-- C6: every stored `GLOBAL_SRC_ID` equals the type-relative source id plus
the source node-type's global offset, and likewise for `GLOBAL_DST_ID` with
the destination type's offset; in particular, with node-type offsets
`{A: 0, B: 5}` a raw edge `(src=2 in A, dst=1 in B)` is stored as the global
row `(src=2, dst=6)`. -/
theorem C6_edge_id_remapping :
    (∀ (t : EtypeRaw) (numParts ws rank k : Nat),
        k < (etype_src_ids t numParts ws rank).length →
      (etype_global_src t numParts ws rank).getD k 0 =
        (etype_src_ids t numParts ws rank).getD k 0 + t.srcOffset) ∧
    (∀ (t : EtypeRaw) (numParts ws rank k : Nat),
        k < (etype_dst_ids t numParts ws rank).length →
      (etype_global_dst t numParts ws rank).getD k 0 =
        (etype_dst_ids t numParts ws rank).getD k 0 + t.dstOffset) ∧
    (ntype_gnid_offset [("A", 5), ("B", 3)] "A" = 0 ∧
      ntype_gnid_offset [("A", 5), ("B", 3)] "B" = 5 ∧
      etype_global_src ⟨[[(2, 1)]], [1], ntype_gnid_offset [("A", 5), ("B", 3)] "A",
        ntype_gnid_offset [("A", 5), ("B", 3)] "B", 0⟩ 1 1 0 = [2] ∧
      etype_global_dst ⟨[[(2, 1)]], [1], ntype_gnid_offset [("A", 5), ("B", 3)] "A",
        ntype_gnid_offset [("A", 5), ("B", 3)] "B", 0⟩ 1 1 0 = [6]) := by
  refine ⟨?_, ?_, by decide, by decide, by decide, by decide⟩
  · intro t numParts ws rank k hk
    exact getD_map_lt (fun x => x + t.srcOffset) _ 0 0 hk
  · intro t numParts ws rank k hk
    exact getD_map_lt (fun x => x + t.dstOffset) _ 0 0 hk

/-- Witness for C6 at a concrete edge type with a nonzero source offset. -/
theorem C6_edge_id_remapping_witness :
    ((0 : Nat) <
        (etype_src_ids ⟨[[(3, 4)]], [1], 7, 2, 0⟩ 1 1 0).length ∧
      (0 : Nat) < (etype_dst_ids ⟨[[(3, 4)]], [1], 7, 2, 0⟩ 1 1 0).length) ∧
    ((etype_global_src ⟨[[(3, 4)]], [1], 7, 2, 0⟩ 1 1 0).getD 0 0 =
        (etype_src_ids ⟨[[(3, 4)]], [1], 7, 2, 0⟩ 1 1 0).getD 0 0 + 7 ∧
      (etype_global_dst ⟨[[(3, 4)]], [1], 7, 2, 0⟩ 1 1 0).getD 0 0 =
        (etype_dst_ids ⟨[[(3, 4)]], [1], 7, 2, 0⟩ 1 1 0).getD 0 0 + 2) :=
  ⟨⟨by decide, by decide⟩,
    C6_edge_id_remapping.1 ⟨[[(3, 4)]], [1], 7, 2, 0⟩ 1 1 0 0 (by decide),
    C6_edge_id_remapping.2.1 ⟨[[(3, 4)]], [1], 7, 2, 0⟩ 1 1 0 0 (by decide)⟩

/-- C7: `get_dataset` fails with a `SchemaError` (spec §7's name for the
fatal canonical-string assert and the unknown-format `ValueError`/assert)
when a canonical edge-type string does not split into exactly three
colon-separated tokens, and when an unknown array format name is supplied
for edge data or for feature data. -/
theorem C7_schema_failures :
    (∀ s : String, (py_split ':' s).length ≠ 3 →
      ∃ m, parse_canonical_etype s = .error (.schemaError m)) ∧
    (∀ name : String, name ≠ "csv" → name ≠ "parquet" →
      ∃ m, check_edge_format name = .error (.schemaError m)) ∧
    (∀ name : String, name ≠ "numpy" → name ≠ "parquet" →
      ∃ m, check_feature_format name = .error (.schemaError m)) := by
  refine ⟨?_, ?_, ?_⟩
  · intro s hs
    unfold parse_canonical_etype
    rw [if_neg hs]
    exact ⟨_, rfl⟩
  · intro name h1 h2
    unfold check_edge_format
    rw [if_neg h1, if_neg h2]
    exact ⟨_, rfl⟩
  · intro name h1 h2
    unfold check_feature_format
    rw [if_neg (by simp [h1, h2])]
    exact ⟨_, rfl⟩

/-- Witness for C7: a two-token canonical string and the unknown format name
`"foo"` are rejected on both format paths. -/
theorem C7_schema_failures_witness :
    (((py_split ':' "paper:cites").length ≠ 3 ∧
        ("foo" : String) ≠ "csv" ∧ ("foo" : String) ≠ "parquet" ∧
        ("foo" : String) ≠ "numpy") ∧
      (∃ m, parse_canonical_etype "paper:cites" = .error (.schemaError m)) ∧
      (∃ m, check_edge_format "foo" = .error (.schemaError m)) ∧
      (∃ m, check_feature_format "foo" = .error (.schemaError m))) :=
  ⟨⟨by decide, by decide, by decide, by decide⟩,
    C7_schema_failures.1 "paper:cites" (by decide),
    C7_schema_failures.2.1 "foo" (by decide) (by decide),
    C7_schema_failures.2.2 "foo" (by decide) (by decide)⟩

/-! ### The feature phases of `get_dataset`

The node-feature block (lines 262-346) and the edge-feature block (lines
398-467) are structurally identical; they are modelled once, parametrized by
the kind string of the log message.  The per-feature format `assert` raises
(`SchemaError` in the spec's taxonomy) before anything is read; a feature
with zero files is skipped (`continue`); after the loop, an *info*-level
message (`logging.info`) is emitted when no features were collected, and
otherwise the size assertions run (`ShapeInvariantError` in the taxonomy). -/

/-- Python `logging` levels used by the assembler. -/
inductive LogLevel where
  | info | warning | error
deriving DecidableEq, Repr

/-- One `(type, feature)` entry of the schema's `node_data`/`edge_data`. -/
structure FeatInput (α : Type) where
  tname : String
  fname : String
  fmtName : String
  files : List (List α)

/-- Read, shuffle and collect one feature: the whole per-feature pipeline of
`get_dataset`. -/
def feature_entries_of (inp : FeatInput α) (numParts ws rank : Nat) :
    List (String × List α) × List (String × List (Nat × Nat)) :=
  collect_loop_entries inp.tname inp.fname
    (get_idranges_tids (inp.files.map List.length) numParts) ws rank
    (shuffle_rows (feature_world inp.files ws)
      (get_idranges_tids (inp.files.map List.length) numParts) numParts ws rank)
    (List.range numParts) 0

/-- The feature loop: format check, skip on zero files, otherwise read,
shuffle, collect and accumulate in insertion order. -/
def features_loop (numParts ws rank : Nat) :
    List (FeatInput α) →
      Except PipelineError
        (List (String × List α) × List (String × List (Nat × Nat)))
  | [] => .ok ([], [])
  | inp :: rest =>
    match check_feature_format inp.fmtName with
    | .error e => .error e
    | .ok _ =>
      if inp.files.length = 0 then features_loop numParts ws rank rest
      else
        match features_loop numParts ws rank rest with
        | .error e => .error e
        | .ok (fs, ts) =>
          .ok ((feature_entries_of inp numParts ws rank).1 ++ fs,
            (feature_entries_of inp numParts ws rank).2 ++ ts)

/-- The whole feature phase: the loop, then either the informational
no-features log or the fatal size assertions with one info log per feature. -/
def features_phase (kind : String) (numParts ws rank : Nat)
    (inputs : List (FeatInput α)) :
    Except PipelineError
      (List (String × List α) × List (String × List (Nat × Nat)) ×
        List (LogLevel × String)) :=
  match features_loop numParts ws rank inputs with
  | .error e => .error e
  | .ok (fs, ts) =>
    if fs.length ≤ 0 then
      .ok (fs, ts,
        [(LogLevel.info, "This dataset does not have any " ++ kind ++ " features")])
    else
      if fs.length == ts.length &&
          (fs.zip ts).all (fun kv =>
            (kv.2.2.getD 0 (0, 0)).2 - (kv.2.2.getD 0 (0, 0)).1 == kv.1.2.length) then
        .ok (fs, ts, fs.map (fun kv => (LogLevel.info, "feature " ++ kv.1)))
      else .error (.shapeInvariantError "feature count mismatch")

/-- C8 counterexample: on a schema with zero feature data the phase returns
normally and logs at *info* level, not at warning level — refuting the
claim's "logs a warning-level note" at this concrete input. -/
theorem C8_info_not_warning_counterexample :
    features_phase "node" 2 2 0 ([] : List (FeatInput Nat)) =
      .ok ([], [],
        [(LogLevel.info, "This dataset does not have any node features")]) ∧
    (LogLevel.info ≠ LogLevel.warning) :=
  ⟨rfl, by decide⟩

/-- C8 (amended): when every entry of a node or edge type's feature data has
zero files (or there are no entries at all), `get_dataset`'s feature phase
does not raise, returns empty feature containers, and logs an *info*-level
(not warning, not error) note. -/
theorem C8_absent_features_not_error {α : Type} (kind : String)
    (numParts ws rank : Nat) (inputs : List (FeatInput α))
    (hfmt : ∀ inp ∈ inputs, inp.fmtName = "numpy" ∨ inp.fmtName = "parquet")
    (hempty : ∀ inp ∈ inputs, inp.files = []) :
    features_phase kind numParts ws rank inputs =
      .ok ([], [],
        [(LogLevel.info, "This dataset does not have any " ++ kind ++ " features")]) := by
  have hloop : features_loop numParts ws rank inputs = .ok ([], []) := by
    induction inputs with
    | nil => rfl
    | cons inp rest ih =>
      unfold features_loop
      have h1 : check_feature_format inp.fmtName = .ok () := by
        unfold check_feature_format
        rw [if_pos (by simpa using hfmt inp (by simp))]
      rw [h1]
      simp only
      rw [if_pos (by rw [hempty inp (by simp)]; rfl)]
      exact ih (fun x hx => hfmt x (by simp [hx])) (fun x hx => hempty x (by simp [hx]))
  unfold features_phase
  rw [hloop]
  rfl

/-- Witness for the amended C8 at a concrete input: one numpy-formatted
feature whose file list is empty. -/
theorem C8_absent_features_not_error_witness :
    ((∀ inp ∈ [(⟨"n0", "f0", "numpy", []⟩ : FeatInput Nat)],
        inp.fmtName = "numpy" ∨ inp.fmtName = "parquet") ∧
      (∀ inp ∈ [(⟨"n0", "f0", "numpy", []⟩ : FeatInput Nat)], inp.files = [])) ∧
    features_phase "node" 4 2 1 [(⟨"n0", "f0", "numpy", []⟩ : FeatInput Nat)] =
      .ok ([], [],
        [(LogLevel.info, "This dataset does not have any node features")]) :=
  ⟨⟨by intro inp h; simp at h; rw [h]; exact Or.inl rfl,
      by intro inp h; simp at h; rw [h]⟩,
    C8_absent_features_not_error "node" 4 2 1 [⟨"n0", "f0", "numpy", []⟩]
      (by intro inp h; simp at h; rw [h]; exact Or.inl rfl)
      (by intro inp h; simp at h; rw [h])⟩

end DistPart

namespace DglSparse

/-!
Modelled from the spec: the `dgl.sparse` elementwise-op library itself is not
under `src/` — only its tests (`tests/pytorch/sparse/test_elementwise_op.py`)
are.  Spec §1/§8: "the sparse-matrix elementwise-op library [...] providing
add/sub with broadcasting and dense/sparse duality"; `add(A, B)` must equal
`dense(A) + dense(B)` elementwise, `add(A, scalar)` must fail with a type
error, and mul/truediv/pow between a diagonal matrix and a general sparse
matrix must fail with a type error.  Values are modelled in `ℚ` (the tests
use torch floats; the claims are algebraic identities independent of the
scalar field, and exact float semantics are out of scope for this embedding).
-/

/-- A sparse matrix in coordinate form; `from_coo/from_csr/from_csc` all
produce this carrier.  Duplicate coordinates accumulate, matching coalescing
sums. -/
structure SparseMatrix where
  nrows : Nat
  ncols : Nat
  coords : List (Nat × Nat)
  vals : List Rat
deriving DecidableEq, Repr

/-- Modelled from the spec ("dense/sparse duality"): the dense entry at
`(i, j)` is the sum of the stored values at that coordinate. -/
def to_dense (A : SparseMatrix) (i j : Nat) : Rat :=
  (((A.coords.zip A.vals).filter
    (fun cv => cv.1.1 = i ∧ cv.1.2 = j)).map Prod.snd).sum

/-- `dglsp.from_coo`. -/
def from_coo (rows cols : List Nat) (vals : List Rat) (shape : Nat × Nat) :
    SparseMatrix :=
  ⟨shape.1, shape.2, rows.zip cols, vals⟩

/-- Expansion of a CSR/CSC index pointer into one major-axis index per
stored value. -/
def expand_indptr (indptr : List Nat) : List Nat :=
  ((List.range (indptr.length - 1)).map
    (fun r => List.replicate (indptr.getD (r + 1) 0 - indptr.getD r 0) r)).flatten

/-- `dglsp.from_csr`. -/
def from_csr (indptr indices : List Nat) (vals : List Rat) (shape : Nat × Nat) :
    SparseMatrix :=
  ⟨shape.1, shape.2, (expand_indptr indptr).zip indices, vals⟩

/-- `dglsp.from_csc`. -/
def from_csc (indptr indices : List Nat) (vals : List Rat) (shape : Nat × Nat) :
    SparseMatrix :=
  ⟨shape.1, shape.2, indices.zip (expand_indptr indptr), vals⟩

/-- `dglsp.diag`: a diagonal matrix is a distinct class holding only the
diagonal values. -/
structure DiagMatrix where
  nrows : Nat
  ncols : Nat
  vals : List Rat
deriving DecidableEq, Repr

/-- Conversion of a diagonal matrix to coordinate form. -/
def diag_to_sparse (D : DiagMatrix) : SparseMatrix :=
  ⟨D.nrows, D.ncols, (List.range D.vals.length).map (fun i => (i, i)), D.vals⟩

/-- The Python `TypeError` the dispatch raises on unsupported operand
combinations. -/
inductive SparseOpError where
  | typeError (msg : String)
deriving DecidableEq, Repr

/-- An operand of the Python-level binary operators: a sparse matrix, a
diagonal matrix, or a plain scalar. -/
inductive SpOperand where
  | sparse (A : SparseMatrix)
  | diag (D : DiagMatrix)
  | scalar (c : Rat)

/-- The matrix payload of an operand, if any. -/
def SpOperand.toSparseM : SpOperand → Option SparseMatrix
  | .sparse A => some A
  | .diag D => some (diag_to_sparse D)
  | .scalar _ => none

/-- Elementwise negation. -/
def sp_neg (A : SparseMatrix) : SparseMatrix :=
  ⟨A.nrows, A.ncols, A.coords, A.vals.map Neg.neg⟩

/-- Elementwise sum of two coordinate-form matrices: stored entries of both
are accumulated. -/
def sp_add_m (A B : SparseMatrix) : SparseMatrix :=
  ⟨A.nrows, A.ncols, A.coords ++ B.coords, A.vals ++ B.vals⟩

/-- `dglsp.add` / `A + B`: defined between sparse/diagonal matrices;
sparse-scalar addition is unsupported and raises `TypeError`. -/
def sp_add (a b : SpOperand) : Except SparseOpError SparseMatrix :=
  match a.toSparseM, b.toSparseM with
  | some A, some B => .ok (sp_add_m A B)
  | _, _ => .error (.typeError "add: unsupported operand combination")

/-- `dglsp.sub` / `A - B`: as `sp_add`, with the right operand negated. -/
def sp_sub (a b : SpOperand) : Except SparseOpError SparseMatrix :=
  match a.toSparseM, b.toSparseM with
  | some A, some B => .ok (sp_add_m A (sp_neg B))
  | _, _ => .error (.typeError "sub: unsupported operand combination")

/-- Dispatch of the remaining elementwise operators (`mul`, `truediv`,
`pow`): any combination of a diagonal matrix with a general sparse matrix is
unsupported and raises `TypeError`; the supported combinations are given at
the dense level by the value operation `f`. -/
def elemwise_dispatch (f : Rat → Rat → Rat) (a b : SpOperand) :
    Except SparseOpError (Nat → Nat → Rat) :=
  match a, b with
  | .diag _, .sparse _ =>
    .error (.typeError "unsupported between DiagMatrix and SparseMatrix")
  | .sparse _, .diag _ =>
    .error (.typeError "unsupported between SparseMatrix and DiagMatrix")
  | .sparse A, .sparse B => .ok (fun i j => f (to_dense A i j) (to_dense B i j))
  | .diag D1, .diag D2 =>
    .ok (fun i j => f (to_dense (diag_to_sparse D1) i j)
      (to_dense (diag_to_sparse D2) i j))
  | .scalar c, .sparse B => .ok (fun i j => f c (to_dense B i j))
  | .scalar c, .diag D => .ok (fun i j => f c (to_dense (diag_to_sparse D) i j))
  | .sparse A, .scalar c => .ok (fun i j => f (to_dense A i j) c)
  | .diag D, .scalar c => .ok (fun i j => f (to_dense (diag_to_sparse D) i j) c)
  | .scalar c, .scalar d => .ok (fun _ _ => f c d)

/-- `dglsp.mul` / `A * B`. -/
def sp_mul : SpOperand → SpOperand → Except SparseOpError (Nat → Nat → Rat) :=
  elemwise_dispatch (· * ·)

/-- `dglsp.truediv` / `A / B`. -/
def sp_truediv : SpOperand → SpOperand → Except SparseOpError (Nat → Nat → Rat) :=
  elemwise_dispatch (· / ·)

/-- `dglsp.power` / `A ** B`, parametrized by the numeric power function
(float exponentiation itself is outside this embedding). -/
def sp_pow_with (f : Rat → Rat → Rat) :
    SpOperand → SpOperand → Except SparseOpError (Nat → Nat → Rat) :=
  elemwise_dispatch f

theorem to_dense_add (A B : SparseMatrix)
    (hA : A.coords.length = A.vals.length) (i j : Nat) :
    to_dense (sp_add_m A B) i j = to_dense A i j + to_dense B i j := by
  unfold to_dense sp_add_m
  simp only
  rw [List.zip_append hA, List.filter_append, List.map_append, List.sum_append]

theorem to_dense_neg (B : SparseMatrix) (i j : Nat) :
    to_dense (sp_neg B) i j = - to_dense B i j := by
  unfold to_dense sp_neg
  simp only
  rw [List.zip_map_right, List.filter_map, List.map_map]
  have h1 : (List.filter
      ((fun cv : (Nat × Nat) × Rat => decide (cv.1.1 = i ∧ cv.1.2 = j)) ∘
        Prod.map id Neg.neg) (B.coords.zip B.vals) ) =
      (B.coords.zip B.vals).filter (fun cv => decide (cv.1.1 = i ∧ cv.1.2 = j)) := by
    apply List.filter_congr
    intro cv _
    rfl
  rw [h1]
  induction (B.coords.zip B.vals).filter
      (fun cv => decide (cv.1.1 = i ∧ cv.1.2 = j)) with
  | nil => simp
  | cons x xs ih =>
    simp only [List.map_cons, List.sum_cons, ih, Function.comp_apply]
    show (Prod.map id Neg.neg x).2 + _ = _
    simp only [Prod.map_snd, id]
    ring

/-- C9: for sparse/diagonal matrices of the same shape (in COO, CSR, CSC or
diagonal form — all are carried by `SparseMatrix`, into which
`from_coo`/`from_csr`/`from_csc`/`diag_to_sparse` convert), `add` and `sub`
produce a matrix whose dense form is the elementwise sum/difference of the
dense forms; `add`/`sub` between a matrix and a scalar raise `TypeError`;
and `mul`, `truediv`, `pow` between a diagonal matrix and a general sparse
matrix raise `TypeError` in both operand orders. -/
theorem C9_sparse_elementwise :
    (∀ (a b : SpOperand) (A B : SparseMatrix) (i j : Nat),
        a.toSparseM = some A → b.toSparseM = some B →
        A.coords.length = A.vals.length → B.coords.length = B.vals.length →
        A.nrows = B.nrows → A.ncols = B.ncols →
      sp_add a b = .ok (sp_add_m A B) ∧
        to_dense (sp_add_m A B) i j = to_dense A i j + to_dense B i j ∧
        sp_sub a b = .ok (sp_add_m A (sp_neg B)) ∧
        to_dense (sp_add_m A (sp_neg B)) i j = to_dense A i j - to_dense B i j) ∧
    (∀ (x : SpOperand) (c : Rat),
      (∃ m, sp_add x (.scalar c) = .error (.typeError m)) ∧
        (∃ m, sp_add (.scalar c) x = .error (.typeError m)) ∧
        (∃ m, sp_sub x (.scalar c) = .error (.typeError m)) ∧
        (∃ m, sp_sub (.scalar c) x = .error (.typeError m))) ∧
    (∀ (D : DiagMatrix) (A : SparseMatrix),
      (∃ m, sp_mul (.diag D) (.sparse A) = .error (.typeError m)) ∧
        (∃ m, sp_mul (.sparse A) (.diag D) = .error (.typeError m)) ∧
        (∃ m, sp_truediv (.diag D) (.sparse A) = .error (.typeError m)) ∧
        (∃ m, sp_truediv (.sparse A) (.diag D) = .error (.typeError m)) ∧
        (∀ f : Rat → Rat → Rat,
          (∃ m, sp_pow_with f (.diag D) (.sparse A) = .error (.typeError m)) ∧
            (∃ m, sp_pow_with f (.sparse A) (.diag D) = .error (.typeError m)))) := by
  refine ⟨?_, ?_, ?_⟩
  · intro a b A B i j ha hb hA hB _ _
    refine ⟨?_, to_dense_add A B hA i j, ?_, ?_⟩
    · unfold sp_add
      rw [ha, hb]
    · unfold sp_sub
      rw [ha, hb]
    · rw [to_dense_add A (sp_neg B) hA i j, to_dense_neg]
      ring
  · intro x c
    refine ⟨?_, ⟨_, rfl⟩, ?_, ⟨_, rfl⟩⟩
    · cases x <;> exact ⟨_, rfl⟩
    · cases x <;> exact ⟨_, rfl⟩
  · intro D A
    exact ⟨⟨_, rfl⟩, ⟨_, rfl⟩, ⟨_, rfl⟩, ⟨_, rfl⟩,
      fun f => ⟨⟨_, rfl⟩, ⟨_, rfl⟩⟩⟩

/-- Witness for C9 at the spec's concrete example: A with coordinates
`{(1,0), (0,3), (2,2)}` and B with `{(1,0), (0,2)}` over shape `(3,4)`,
checked at entry `(1, 0)`; plus the scalar-add error and the diag-mul error
at concrete operands. -/
theorem C9_sparse_elementwise_witness :
    ((SpOperand.sparse (from_coo [1, 0, 2] [0, 3, 2] [1, 2, 3] (3, 4))).toSparseM =
        some (from_coo [1, 0, 2] [0, 3, 2] [1, 2, 3] (3, 4)) ∧
      (from_coo [1, 0, 2] [0, 3, 2] [1, 2, 3] (3, 4)).coords.length =
        (from_coo [1, 0, 2] [0, 3, 2] [1, 2, 3] (3, 4)).vals.length ∧
      (from_coo [1, 0] [0, 2] [10, 20] (3, 4)).coords.length =
        (from_coo [1, 0] [0, 2] [10, 20] (3, 4)).vals.length) ∧
    (sp_add (.sparse (from_coo [1, 0, 2] [0, 3, 2] [1, 2, 3] (3, 4)))
        (.sparse (from_coo [1, 0] [0, 2] [10, 20] (3, 4))) =
      .ok (sp_add_m (from_coo [1, 0, 2] [0, 3, 2] [1, 2, 3] (3, 4))
        (from_coo [1, 0] [0, 2] [10, 20] (3, 4))) ∧
      to_dense (sp_add_m (from_coo [1, 0, 2] [0, 3, 2] [1, 2, 3] (3, 4))
          (from_coo [1, 0] [0, 2] [10, 20] (3, 4))) 1 0 =
        to_dense (from_coo [1, 0, 2] [0, 3, 2] [1, 2, 3] (3, 4)) 1 0 +
          to_dense (from_coo [1, 0] [0, 2] [10, 20] (3, 4)) 1 0 ∧
      sp_sub (.sparse (from_coo [1, 0, 2] [0, 3, 2] [1, 2, 3] (3, 4)))
          (.sparse (from_coo [1, 0] [0, 2] [10, 20] (3, 4))) =
        .ok (sp_add_m (from_coo [1, 0, 2] [0, 3, 2] [1, 2, 3] (3, 4))
          (sp_neg (from_coo [1, 0] [0, 2] [10, 20] (3, 4)))) ∧
      to_dense (sp_add_m (from_coo [1, 0, 2] [0, 3, 2] [1, 2, 3] (3, 4))
          (sp_neg (from_coo [1, 0] [0, 2] [10, 20] (3, 4)))) 1 0 =
        to_dense (from_coo [1, 0, 2] [0, 3, 2] [1, 2, 3] (3, 4)) 1 0 -
          to_dense (from_coo [1, 0] [0, 2] [10, 20] (3, 4)) 1 0) ∧
    (∃ m, sp_add (.sparse (from_coo [1, 0, 2] [0, 3, 2] [1, 2, 3] (3, 4)))
        (.scalar 2) = .error (.typeError m)) ∧
    (∃ m, sp_mul (.diag ⟨3, 4, [1, 2, 3]⟩)
        (.sparse (from_coo [1, 0, 2] [0, 3, 2] [1, 2, 3] (3, 4))) =
      .error (.typeError m)) :=
  ⟨⟨rfl, rfl, rfl⟩,
    C9_sparse_elementwise.1
      (.sparse (from_coo [1, 0, 2] [0, 3, 2] [1, 2, 3] (3, 4)))
      (.sparse (from_coo [1, 0] [0, 2] [10, 20] (3, 4)))
      (from_coo [1, 0, 2] [0, 3, 2] [1, 2, 3] (3, 4))
      (from_coo [1, 0] [0, 2] [10, 20] (3, 4)) 1 0 rfl rfl rfl rfl rfl rfl,
    (C9_sparse_elementwise.2.1
      (.sparse (from_coo [1, 0, 2] [0, 3, 2] [1, 2, 3] (3, 4))) 2).1,
    (C9_sparse_elementwise.2.2 ⟨3, 4, [1, 2, 3]⟩
      (from_coo [1, 0, 2] [0, 3, 2] [1, 2, 3] (3, 4))).1⟩

end DglSparse
